import Mathlib

/-!
# Verification of the SD-JWT / JWE core of `did-jwt`

Shallow embedding of the selective-disclosure (SD-JWT) and encryption-envelope
(JWE) code of the repository, together with theorems settling the frozen
claims about it.

Embedded source files:
* `src/unnamed/part_001` — the SD-JWT module (namespace `SD1` below for the
  functions that differ between the two SD-JWT source files);
* `src/src/SD-JWT.ts`   — an SD-JWT module variant (namespace `SD0` below);
* `src/src/encryption/JWE.ts` — the JWE module (namespace `JWE1` below).

JavaScript builtins and out-of-repository collaborators (sha-256, base64url
codecs, `JSON.parse`, `JSON.stringify`, `randomBytes`, `decodeJWT`) are taken
as function parameters of the embedded definitions; everything the claims
hinge on (control flow, property tests, error raising) is translated
concretely from the source.
-/

set_option maxHeartbeats 1000000

namespace DidJwt

/-- JavaScript values as handled by the SD-JWT code: the JSON value shapes
(`null`, booleans, numbers, strings, arrays, objects) plus `undefined`,
which arises from out-of-bounds array indexing.  Object fields are kept in
JS enumeration order. Numbers are modelled as integers (no claim depends on
non-integral numbers). -/
inductive JSVal where
  | null : JSVal
  | undef : JSVal
  | bool (b : Bool) : JSVal
  | num (n : Int) : JSVal
  | str (s : String) : JSVal
  | arr (elems : List JSVal) : JSVal
  | obj (fields : List (String × JSVal)) : JSVal

mutual

/-- Decidable equality for `JSVal` (spelled out because `deriving` does not
handle the nested `List` occurrences). -/
def JSVal.decEq : (a b : JSVal) → Decidable (a = b)
  | .null, .null => isTrue rfl
  | .undef, .undef => isTrue rfl
  | .bool x, .bool y =>
      if h : x = y then isTrue (by rw [h])
      else isFalse (by intro hc; injection hc; contradiction)
  | .num x, .num y =>
      if h : x = y then isTrue (by rw [h])
      else isFalse (by intro hc; injection hc; contradiction)
  | .str x, .str y =>
      if h : x = y then isTrue (by rw [h])
      else isFalse (by intro hc; injection hc; contradiction)
  | .arr x, .arr y =>
      match JSVal.decEqList x y with
      | isTrue h => isTrue (by rw [h])
      | isFalse h => isFalse (by intro hc; injection hc; contradiction)
  | .obj x, .obj y =>
      match JSVal.decEqFields x y with
      | isTrue h => isTrue (by rw [h])
      | isFalse h => isFalse (by intro hc; injection hc; contradiction)
  | .null, .undef => isFalse (fun h => JSVal.noConfusion h)
  | .null, .bool _ => isFalse (fun h => JSVal.noConfusion h)
  | .null, .num _ => isFalse (fun h => JSVal.noConfusion h)
  | .null, .str _ => isFalse (fun h => JSVal.noConfusion h)
  | .null, .arr _ => isFalse (fun h => JSVal.noConfusion h)
  | .null, .obj _ => isFalse (fun h => JSVal.noConfusion h)
  | .undef, .null => isFalse (fun h => JSVal.noConfusion h)
  | .undef, .bool _ => isFalse (fun h => JSVal.noConfusion h)
  | .undef, .num _ => isFalse (fun h => JSVal.noConfusion h)
  | .undef, .str _ => isFalse (fun h => JSVal.noConfusion h)
  | .undef, .arr _ => isFalse (fun h => JSVal.noConfusion h)
  | .undef, .obj _ => isFalse (fun h => JSVal.noConfusion h)
  | .bool _, .null => isFalse (fun h => JSVal.noConfusion h)
  | .bool _, .undef => isFalse (fun h => JSVal.noConfusion h)
  | .bool _, .num _ => isFalse (fun h => JSVal.noConfusion h)
  | .bool _, .str _ => isFalse (fun h => JSVal.noConfusion h)
  | .bool _, .arr _ => isFalse (fun h => JSVal.noConfusion h)
  | .bool _, .obj _ => isFalse (fun h => JSVal.noConfusion h)
  | .num _, .null => isFalse (fun h => JSVal.noConfusion h)
  | .num _, .undef => isFalse (fun h => JSVal.noConfusion h)
  | .num _, .bool _ => isFalse (fun h => JSVal.noConfusion h)
  | .num _, .str _ => isFalse (fun h => JSVal.noConfusion h)
  | .num _, .arr _ => isFalse (fun h => JSVal.noConfusion h)
  | .num _, .obj _ => isFalse (fun h => JSVal.noConfusion h)
  | .str _, .null => isFalse (fun h => JSVal.noConfusion h)
  | .str _, .undef => isFalse (fun h => JSVal.noConfusion h)
  | .str _, .bool _ => isFalse (fun h => JSVal.noConfusion h)
  | .str _, .num _ => isFalse (fun h => JSVal.noConfusion h)
  | .str _, .arr _ => isFalse (fun h => JSVal.noConfusion h)
  | .str _, .obj _ => isFalse (fun h => JSVal.noConfusion h)
  | .arr _, .null => isFalse (fun h => JSVal.noConfusion h)
  | .arr _, .undef => isFalse (fun h => JSVal.noConfusion h)
  | .arr _, .bool _ => isFalse (fun h => JSVal.noConfusion h)
  | .arr _, .num _ => isFalse (fun h => JSVal.noConfusion h)
  | .arr _, .str _ => isFalse (fun h => JSVal.noConfusion h)
  | .arr _, .obj _ => isFalse (fun h => JSVal.noConfusion h)
  | .obj _, .null => isFalse (fun h => JSVal.noConfusion h)
  | .obj _, .undef => isFalse (fun h => JSVal.noConfusion h)
  | .obj _, .bool _ => isFalse (fun h => JSVal.noConfusion h)
  | .obj _, .num _ => isFalse (fun h => JSVal.noConfusion h)
  | .obj _, .str _ => isFalse (fun h => JSVal.noConfusion h)
  | .obj _, .arr _ => isFalse (fun h => JSVal.noConfusion h)

def JSVal.decEqList : (a b : List JSVal) → Decidable (a = b)
  | [], [] => isTrue rfl
  | [], _ :: _ => isFalse (fun h => List.noConfusion h)
  | _ :: _, [] => isFalse (fun h => List.noConfusion h)
  | x :: xs, y :: ys =>
      match JSVal.decEq x y with
      | isFalse h => isFalse (by intro hc; injection hc; contradiction)
      | isTrue h1 =>
          match JSVal.decEqList xs ys with
          | isTrue h2 => isTrue (by rw [h1, h2])
          | isFalse h => isFalse (by intro hc; injection hc; contradiction)

def JSVal.decEqFields : (a b : List (String × JSVal)) → Decidable (a = b)
  | [], [] => isTrue rfl
  | [], _ :: _ => isFalse (fun h => List.noConfusion h)
  | _ :: _, [] => isFalse (fun h => List.noConfusion h)
  | (k1, v1) :: xs, (k2, v2) :: ys =>
      if hk : k1 = k2 then
        match JSVal.decEq v1 v2 with
        | isFalse h => isFalse (by
            intro hc; injection hc with h1 h2; injection h1; contradiction)
        | isTrue hv =>
            match JSVal.decEqFields xs ys with
            | isTrue ht => isTrue (by rw [hk, hv, ht])
            | isFalse h => isFalse (by intro hc; injection hc; contradiction)
      else isFalse (by
        intro hc; injection hc with h1 h2; injection h1; contradiction)

end

instance : DecidableEq JSVal := JSVal.decEq

/-- Errors the embedded functions can raise.  Each constructor corresponds to
one `throw` site of the source (or to a JS runtime error), plus `outOfFuel`,
a modelling artifact standing for non-termination of the unbounded JS
recursion. -/
inductive JsErr : Type where
  /-- modelling artifact: the fuel bound on recursion depth was exhausted -/
  | outOfFuel
  /-- JS `TypeError` (e.g. `Object.entries(null)`, `'...' in null`,
      `value.filter is not a function`) -/
  | typeError
  /-- JS `SyntaxError` from `JSON.parse` on undecodable input -/
  | syntaxError
  /-- part_001 `expandDisclosures`: `throw new Error('Invalid disclosure key')` -/
  | invalidDisclosureKey
  /-- `expandDisclosures`: `throw new Error('Duplicate key ...')` -/
  | duplicateKey
  /-- `parse*Disclosure`: `throw new Error('Invalid disclosure format...')` -/
  | invalidDisclosureFormat
  /-- `parseObjectPropertyDisclosure`: `throw new Error('Disclosure array length is not supported')` -/
  | disclosureArrayLength
  /-- `hashDisclosure`: `throw new Error('Unsupported sd_alg: ...')` -/
  | unsupportedSdAlg
  /-- `createJWE`: `not_supported: Can only do "dir" encryption to one key.` -/
  | dirMultipleKeys
  /-- `createJWE`: `invalid_argument: Incompatible encrypters passed` -/
  | incompatibleEncrypters
  /-- `validateJWE`: `bad_jwe: missing properties` -/
  | badJweMissingProps
  /-- `validateJWE`: `bad_jwe: malformed recipients` -/
  | badJweMalformedRecipients
  /-- `decryptJWE`: `not_supported: Decrypter does not supported: ...` -/
  | decrypterNotSupported
  /-- `decryptJWE`: `bad_jwe: missing recipients` -/
  | badJweMissingRecipients
  /-- `decryptJWE`: `failure: Failed to decrypt` -/
  | decryptFailure
deriving DecidableEq, Repr

/-- Decidable equality of `Except` results (not provided by the library). -/
instance {ε α : Type} [DecidableEq ε] [DecidableEq α] : DecidableEq (Except ε α) := fun a b =>
  match a, b with
  | .ok x, .ok y =>
      if h : x = y then isTrue (by rw [h])
      else isFalse (by intro hc; injection hc; contradiction)
  | .error x, .error y =>
      if h : x = y then isTrue (by rw [h])
      else isFalse (by intro hc; injection hc; contradiction)
  | .ok _, .error _ => isFalse (fun h => Except.noConfusion h)
  | .error _, .ok _ => isFalse (fun h => Except.noConfusion h)

/-! ## Basic JS object/array operations -/

mutual

/-- JS string coercion of a value (`String(v)`), as used by `ToPropertyKey`
when a non-string value is used as a property key.  Arrays render via
`Array.prototype.toString` (elements joined with `","`, `null`/`undefined`
elements as empty strings). -/
def jsToStr : JSVal → String
  | .str s => s
  | .num n => toString n
  | .bool true => "true"
  | .bool false => "false"
  | .null => "null"
  | .undef => "undefined"
  | .arr xs => String.intercalate "," (jsToStrList xs)
  | .obj _ => "[object Object]"

def jsToStrList : List JSVal → List String
  | [] => []
  | .null :: rest => "" :: jsToStrList rest
  | .undef :: rest => "" :: jsToStrList rest
  | v :: rest => jsToStr v :: jsToStrList rest

end

/-- Look up an own property of an object field list (first match; JS objects
never hold a key twice). -/
def getField {α : Type} : List (String × α) → String → Option α
  | [], _ => none
  | (k', v) :: rest, k => if k' == k then some v else getField rest k

/-- JS member access `o[k]` on an object: the own property's value, or
`undefined` when absent.  (Non-object bases are unreachable at the embedded
call sites.) -/
def jsGetField : JSVal → String → JSVal
  | .obj fields, k => (getField fields k).getD .undef
  | _, _ => (.undef)

/-- Assignment into a field list: update the existing key in place (keeping
its position) or append a fresh one, exactly as JS property assignment. -/
def setField (fields : List (String × JSVal)) (k : String) (v : JSVal) :
    List (String × JSVal) :=
  match fields with
  | [] => [(k, v)]
  | (k', v') :: rest =>
      if k' == k then (k', v) :: rest else (k', v') :: setField rest k v

/-- JS assignment `wip[k] = v`.  On arrays the keys used by the embedded code
are always decimal indices obtained from `Object.entries` of an array of the
same length, so assignment replaces that element; other bases silently ignore
the write (unreachable here). -/
def jsSet : JSVal → String → JSVal → JSVal
  | .obj fields, k, v => .obj (setField fields k v)
  | .arr xs, k, v => .arr ((xs.enum.map (fun p => if toString p.1 == k then v else p.2)))
  | base, _, _ => base

/-- JS `delete wip[k]`.  The embedded code only deletes `'_sd'`, which is
never an array index, so arrays and primitives are unchanged. -/
def jsDelete : JSVal → String → JSVal
  | .obj fields, k => .obj (fields.filter (fun f => !(f.1 == k)))
  | base, _ => base

/-- The JS `in` operator on the working node (`d.key in wip`): tests own
properties.  (Property names inherited from `Object.prototype`, e.g.
`"toString"`, would also test true in full JS; none of the claims involves
them, so the prototype chain is not modelled.) -/
def jsHasProp : JSVal → String → Bool
  | .obj fields, k => fields.any (fun f => f.1 == k)
  | .arr xs, k => (xs.enum.any (fun p => toString p.1 == k)) || k == "length"
  | _, _ => false

/-- `Object.entries(v)`: field list of an object, index/value pairs of an
array, per-character entries of a string, `[]` for numbers and booleans, and
a `TypeError` for `null`.  (For `undefined` the JSON-clone on the line before
the `Object.entries` call in the source already throws a `SyntaxError`.) -/
def jsEntries : JSVal → Except JsErr (List (String × JSVal))
  | .null => .error .typeError
  | .undef => .error .syntaxError
  | .obj fields => .ok fields
  | .arr xs => .ok (xs.enum.map (fun p => (toString p.1, p.2)))
  | .str s => .ok ((s.toList.enum.map (fun p => (toString p.1, .str (String.singleton p.2)))))
  | _ => .ok []

mutual

/-- `JSON.parse(JSON.stringify(v))`: identity on JSON-clean values; object
properties whose value is `undefined` are dropped, array elements that are
`undefined` become `null`. -/
def jsonClone : JSVal → JSVal
  | .obj fields => .obj (jsonCloneFields fields)
  | .arr xs => .arr (jsonCloneElems xs)
  | v => v

def jsonCloneFields : List (String × JSVal) → List (String × JSVal)
  | [] => []
  | (_, .undef) :: rest => jsonCloneFields rest
  | (k, v) :: rest => (k, jsonClone v) :: jsonCloneFields rest

def jsonCloneElems : List JSVal → List JSVal
  | [] => []
  | .undef :: rest => .null :: jsonCloneElems rest
  | v :: rest => jsonClone v :: jsonCloneElems rest

end

/-- JS truthiness of the values that can appear here. -/
def jsTruthy : JSVal → Bool
  | .null => false
  | .undef => false
  | .bool b => b
  | .num n => n ≠ 0
  | .str s => s ≠ ""
  | .arr _ => true
  | .obj _ => true

/-- `typeof v === 'object'` (true for `null`, arrays and objects — the
classic JS pitfall that `typeof null` is `'object'`). -/
def typeofObject : JSVal → Bool
  | .null => true
  | .arr _ => true
  | .obj _ => true
  | _ => false

/-! ## The JS `Map` used as digest → disclosure index

`new Map(entries)` keeps the entries; on duplicate keys the later entry
overwrites the earlier one, so lookup returns the value of the *last* entry
with the key. -/

/-- `Map.get`: the value of the last entry carrying the key.  (Generalized
over the value type so that it also serves as the effective-lookup function
of a JS object literal built by spreads, where later properties likewise
overwrite earlier ones.) -/
def mapGet {α : Type} (m : List (String × α)) (k : String) : Option α :=
  match m with
  | [] => none
  | (k', v) :: rest =>
      match mapGet rest k with
      | some v' => some v'
      | none => if k' == k then some v else none

/-- `Map.has`. -/
def mapHas (m : List (String × String)) (k : String) : Bool :=
  (mapGet m k).isSome

/-- `Map.set`: update the existing entry in place or append a new one. -/
def mapSet (m : List (String × String)) (k v : String) : List (String × String) :=
  match m with
  | [] => [(k, v)]
  | (k', v') :: rest =>
      if k' == k then (k', v) :: rest else (k', v') :: mapSet rest k v

/-! ## Disclosures (`src/unnamed/part_001` and `src/src/SD-JWT.ts`; the
definitions in this section are identical in the two files) -/

/-- JS array indexing `xs[i]`: `undefined` beyond the end. -/
def jsIdx (xs : List JSVal) (i : Nat) : JSVal := (xs[i]?).getD (.undef)

/-- An object-property disclosure as produced by
`parseObjectPropertyDisclosure`.  The TS fields are typed `string`/`JSONValue`
but are filled by unchecked casts from the parsed array, so they are modelled
as arbitrary JS values. -/
structure ObjectPropertyDisclosure where
  salt : JSVal
  key : JSVal
  value : JSVal
deriving DecidableEq

/-- An array-element disclosure as produced by `parseArrayElementDisclosure`. -/
structure ArrayElementDisclosure where
  salt : JSVal
  value : JSVal
deriving DecidableEq

/-- `parseObjectPropertyDisclosure(encodedDisclosure)`.

`dec` stands for the composite of `decodeBase64url` (from `util.js`) and the
`JSON.parse` builtin; `none` models a `JSON.parse` throw.  The parsed content
must be a JSON array of exactly 3 elements. -/
def parseObjectPropertyDisclosure (dec : String → Option JSVal)
    (encodedDisclosure : String) : Except JsErr ObjectPropertyDisclosure :=
  match dec encodedDisclosure with
  | none => .error .syntaxError
  | some (.arr disclosureArray) =>
      if disclosureArray.length ≠ 3 then .error .disclosureArrayLength
      else .ok { salt := jsIdx disclosureArray 0, key := jsIdx disclosureArray 1,
                 value := jsIdx disclosureArray 2 }
  | some _ => .error .invalidDisclosureFormat

/-- `parseArrayElementDisclosure(encodedDisclosure)`: checks only that the
decoded content is a JSON array, then reads `disclosureArray[0]` and
`disclosureArray[1]` (both `undefined` when the array is shorter — the
source has no length check here). -/
def parseArrayElementDisclosure (dec : String → Option JSVal)
    (encodedDisclosure : String) : Except JsErr ArrayElementDisclosure :=
  match dec encodedDisclosure with
  | none => .error .syntaxError
  | some (.arr disclosureArray) =>
      .ok { salt := jsIdx disclosureArray 0, value := jsIdx disclosureArray 1 }
  | some _ => .error .invalidDisclosureFormat

/-- `hashDisclosure(disclosure, sd_alg)`.  `hashF` stands for the composite
`bytesToBase64url(sha256(stringToBytes(disclosure)))` over the external
`@noble/hashes` primitive.  The algorithm tag is compared with `===` against
`'sha-256'`; anything else (including the non-string runtime values a decoded
payload can put there) throws. -/
def hashDisclosure (hashF : String → String) (disclosure : String)
    (sd_alg : JSVal) : Except JsErr String :=
  if sd_alg = .str "sha-256" then .ok (hashF disclosure)
  else .error .unsupportedSdAlg

/-- `buildDigestDisclosureMap(disclosures, sd_alg)`: one `(digest, disclosure)`
entry per presented disclosure, in presented order, collected into a JS `Map`
(see `mapGet` for its duplicate-key semantics). -/
def buildDigestDisclosureMap (hashF : String → String)
    (disclosures : List String) (sd_alg : JSVal) :
    Except JsErr (List (String × String)) :=
  disclosures.mapM (fun disclosure =>
    (hashDisclosure hashF disclosure sd_alg).map (fun digest => (digest, disclosure)))

namespace SD1

/-! ## Expansion (`src/unnamed/part_001`) -/

/-- part_001 `isValidDisclosureKey(key)`: literally `!(key in ['nbf', 'iat',
'exp'])`.  The JS `in` operator applied to an **array** tests property names,
not membership: the own properties of the 3-element array literal are the
indices `"0"`, `"1"`, `"2"` and `"length"` — never the strings
`'nbf'`/`'iat'`/`'exp'`.  (Method names inherited from `Array.prototype`,
e.g. `"push"`, would also test true in full JS; they are irrelevant to every
claim and not modelled.)  A non-string `key` is coerced by `ToPropertyKey`. -/
def isValidDisclosureKey (key : JSVal) : Bool :=
  !(jsHasProp (.arr [.str "nbf", .str "iat", .str "exp"]) (jsToStr key))

/-- The `_sd` pipeline of part_001 `expandDisclosures`: keep the digests
present in the map (`Map.has` is false for non-string array entries), look
each up, parse as an object-property disclosure, and reject invalid keys. -/
def resolveSdDigests (dec : String → Option JSVal)
    (disclosureMap : List (String × String)) (sdValues : List JSVal) :
    Except JsErr (List ObjectPropertyDisclosure) :=
  (sdValues.filterMap (fun v =>
      match v with
      | .str digest => if mapHas disclosureMap digest then some digest else none
      | _ => none)).mapM
    (fun digest => do
      let disclosure := (mapGet disclosureMap digest).getD ""
      let parsed ← parseObjectPropertyDisclosure dec disclosure
      if isValidDisclosureKey parsed.key then pure parsed
      else .error .invalidDisclosureKey)

/-- The body of `expandArrayElements` (the `for (const element of
arrayElements)` loop), abstracted over the recursive call into
`expandDisclosures` (`expand`).  Identical in both SD-JWT source files.
Note the two faithful quirks: `typeof null === 'object'`, so a `null`
element reaches `'...' in element` and throws a `TypeError`; and a revealed
element is spliced in as `parsed.value` without any recursion into it. -/
def expandArrayElementsGo (dec : String → Option JSVal)
    (disclosureMap : List (String × String)) (recurse : Bool)
    (expand : JSVal → Except JsErr JSVal) :
    List JSVal → Except JsErr (List JSVal)
  | [] => .ok []
  | element :: rest =>
      match element with
      | .null =>
          -- `typeof null === 'object'`, then `'...' in null` throws
          .error .typeError
      | .obj fields =>
          if fields.any (fun f => f.1 == "...") then
            match
              (match getField fields "..." with
               | some (.str digest) => mapGet disclosureMap digest
               | _ => none) with
            | none =>
                -- skip if not revealed in disclosures
                expandArrayElementsGo dec disclosureMap recurse expand rest
            | some disclosure =>
                if disclosure == "" then
                  -- `if (!disclosure) continue`: the empty string is falsy
                  expandArrayElementsGo dec disclosureMap recurse expand rest
                else do
                  let parsed ← parseArrayElementDisclosure dec disclosure
                  let mapped ← expandArrayElementsGo dec disclosureMap recurse expand rest
                  pure (parsed.value :: mapped)
          else
            if recurse then do
              let el ← expand (.obj fields)
              let mapped ← expandArrayElementsGo dec disclosureMap recurse expand rest
              pure (el :: mapped)
            else do
              let mapped ← expandArrayElementsGo dec disclosureMap recurse expand rest
              pure (JSVal.obj fields :: mapped)
      | .arr xs =>
          -- `typeof element === 'object'` and `'...' in element` is false
          if recurse then do
            let el ← expand (.arr xs)
            let mapped ← expandArrayElementsGo dec disclosureMap recurse expand rest
            pure (el :: mapped)
          else do
            let mapped ← expandArrayElementsGo dec disclosureMap recurse expand rest
            pure (JSVal.arr xs :: mapped)
      | prim => do
          -- strings, numbers, booleans and `undefined` are not objects
          let mapped ← expandArrayElementsGo dec disclosureMap recurse expand rest
          pure (prim :: mapped)

/-- The `asObjectDisclosures.forEach(...)` loop of `expandDisclosures`:
duplicate-key check against the evolving clone, optional recursion into the
disclosure's value, then assignment. -/
def applyObjectDisclosuresGo (dec : String → Option JSVal)
    (disclosureMap : List (String × String)) (recurse : Bool)
    (expand : JSVal → Except JsErr JSVal) :
    List ObjectPropertyDisclosure → JSVal → Except JsErr JSVal
  | [], wip => .ok wip
  | d :: rest, wip =>
      if jsHasProp wip (jsToStr d.key) then .error .duplicateKey
      else do
        let value ←
          if recurse then
            match d.value with
            | .arr xs => do
                let mapped ← expandArrayElementsGo dec disclosureMap recurse expand xs
                pure (JSVal.arr mapped)
            | .obj fs =>
                -- `typeof value === 'object' && value !== null` (arrays were
                -- caught by the `Array.isArray` branch, `null` by the guard)
                expand (.obj fs)
            | v => pure v
          else pure d.value
        applyObjectDisclosuresGo dec disclosureMap recurse expand rest
          (jsSet wip (jsToStr d.key) value)

/-- The `for (const [key, value] of entries)` loop of `expandDisclosures`,
with `wip` threaded as the mutable clone. -/
def expandEntriesGo (dec : String → Option JSVal)
    (disclosureMap : List (String × String)) (recurse : Bool)
    (expand : JSVal → Except JsErr JSVal) :
    List (String × JSVal) → JSVal → Except JsErr JSVal
  | [], wip => .ok wip
  | (key, value) :: rest, wip =>
      if key == "_sd" then
        match value with
        | .arr sdValues => do
            let ds ← resolveSdDigests dec disclosureMap sdValues
            let wip2 ← applyObjectDisclosuresGo dec disclosureMap recurse expand ds wip
            expandEntriesGo dec disclosureMap recurse expand rest (jsDelete wip2 "_sd")
        | _ =>
            -- a non-array `_sd` value has no `.filter` method: TypeError
            .error .typeError
      else
        match value with
        | .arr xs => do
            let mapped ← expandArrayElementsGo dec disclosureMap recurse expand xs
            expandEntriesGo dec disclosureMap recurse expand rest (jsSet wip key (.arr mapped))
        | v =>
            if recurse && typeofObject v then do
              let mapped ← expand v
              expandEntriesGo dec disclosureMap recurse expand rest (jsSet wip key mapped)
            else
              expandEntriesGo dec disclosureMap recurse expand rest wip

/-- part_001 `expandDisclosures(jwtPayload, disclosureMap, recurse)`: clone
the input, then walk `Object.entries` of the *original* node, mutating the
clone.  `fuel` bounds the recursion depth (one unit per nested
`expandDisclosures` call), modelling the unbounded JS call stack; every
theorem quantifies over it or instantiates it concretely. -/
def expandDisclosures (dec : String → Option JSVal) :
    Nat → JSVal → List (String × String) → Bool → Except JsErr JSVal
  | 0, _, _, _ => .error .outOfFuel
  | fuel + 1, jwtPayload, disclosureMap, recurse => do
      let wip := jsonClone jwtPayload
      let entries ← jsEntries jwtPayload
      expandEntriesGo dec disclosureMap recurse
        (fun v => expandDisclosures dec fuel v disclosureMap recurse) entries wip

/-- part_001 `expandArrayElements(arrayElements, disclosureMap, recurse)`
at a given recursion-depth budget for the `expandDisclosures` calls it can
make. -/
def expandArrayElements (dec : String → Option JSVal) (fuel : Nat)
    (arrayElements : List JSVal) (disclosureMap : List (String × String))
    (recurse : Bool) : Except JsErr (List JSVal) :=
  expandArrayElementsGo dec disclosureMap recurse
    (fun v => expandDisclosures dec fuel v disclosureMap recurse) arrayElements

end SD1

/-- Spread / `Object.assign` of a field list into an existing field list:
source properties are assigned left to right (`setField` semantics). -/
def spreadFields (base add : List (String × JSVal)) : List (String × JSVal) :=
  add.foldl (fun acc kv => setField acc kv.1 kv.2) base

namespace SD1

/-! ## Wire format and issuer helper (`src/unnamed/part_001`) -/

/-- part_001 `formSdJwt(jwt, encodedDisclosures, kbJwt)`:
`` `${jwt}~${encodedDisclosures.join('~')}~${kbJwt ? kbJwt : ''}` ``. -/
def formSdJwt (jwt : String) (encodedDisclosures : List String)
    (kbJwt : Option String) : String :=
  jwt ++ "~" ++ String.intercalate "~" encodedDisclosures ++ "~" ++
    (match kbJwt with
     | some kb => if kb == "" then "" else kb
     | none => "")

/-- `doSpecStringify(disclosure)`: stringify each element and join with
`", "` inside brackets.  `strF` stands for the `JSON.stringify` builtin. -/
def doSpecStringify (strF : JSVal → String) (disclosure : List JSVal) : String :=
  "[" ++ String.intercalate ", " (disclosure.map strF) ++ "]"

/-- part_001 `encodeDisclosure(disclosure, specCompatStringify)` applied to
the already-flattened `disclosureToArray` form.  `b64e` stands for
`bytesToBase64url(stringToBytes(-))`. -/
def encodeDisclosure (strF : JSVal → String) (b64e : String → String)
    (disclosureAsArray : List JSVal) (specCompatStringify : Bool) : String :=
  let stringified :=
    if specCompatStringify then doSpecStringify strF disclosureAsArray
    else strF (.arr disclosureAsArray)
  b64e stringified

/-- part_001 `createObjectPropertyDisclosure(key, value, options)`, with the
salt made explicit (the source draws it from `createSalt()` — i.e. from
`randomBytes` — when no option is passed; callers below thread a salt
stream for that). -/
def createObjectPropertyDisclosure (strF : JSVal → String)
    (b64e : String → String) (key : String) (value : JSVal) (salt : String)
    (specCompatStringify : Bool) : String :=
  encodeDisclosure strF b64e [.str salt, .str key, value] specCompatStringify

/-- part_001 `createArrayElementDisclosure(arrayElement, options)`. -/
def createArrayElementDisclosure (strF : JSVal → String)
    (b64e : String → String) (arrayElement : JSVal) (salt : String)
    (specCompatStringify : Bool) : String :=
  encodeDisclosure strF b64e [.str salt, arrayElement] specCompatStringify

/-- The `Object.entries(sdClaims).forEach` loop of `sdJwtPayloadHelper`,
threading the accumulated `_sd` digest array, the array-element wrapper
object, the digest→disclosure map, and the index into the salt stream. -/
def sdJwtPayloadHelperGo (strF : JSVal → String) (b64e : String → String)
    (hashF : String → String) (salts : Nat → String) (sd_alg : String) :
    List (String × JSVal) →
    (List String × List (String × JSVal) × List (String × String) × Nat) →
    Except JsErr (List String × List (String × JSVal) × List (String × String) × Nat)
  | [], st => .ok st
  | (key, value) :: rest, (sdArray, wrapper, dmap, i) =>
      match value with
      | .arr arrayElements => do
          -- one array-element disclosure per element, then one `{'...': digest}`
          -- wrapper per disclosure, with each digest recorded in the map
          let disclosures := arrayElements.enum.map
            (fun p => createArrayElementDisclosure strF b64e p.2 (salts (i + p.1)) false)
          let entries ← disclosures.mapM (fun d =>
            (hashDisclosure hashF d (.str sd_alg)).map (fun digest => (digest, d)))
          let dmap2 := entries.foldl (fun m p => mapSet m p.1 p.2) dmap
          let arrayVal := JSVal.arr (entries.map (fun p => JSVal.obj [("...", .str p.1)]))
          sdJwtPayloadHelperGo strF b64e hashF salts sd_alg rest
            (sdArray, setField wrapper key arrayVal, dmap2, i + arrayElements.length)
      | v => do
          let disclosure := createObjectPropertyDisclosure strF b64e key v (salts i) false
          let digest ← hashDisclosure hashF disclosure (.str sd_alg)
          sdJwtPayloadHelperGo strF b64e hashF salts sd_alg rest
            (sdArray ++ [digest], wrapper, mapSet dmap digest disclosure, i + 1)

/-- part_001 `sdJwtPayloadHelper(sdClaims, clearClaims, sd_alg)`: build the
disclosures, then assemble
`{ _sd_alg, _sd: sdArray, ...clearClaims, ...sdArrayElementWrapper }` and
return it with the digest→disclosure map. -/
def sdJwtPayloadHelper (strF : JSVal → String) (b64e : String → String)
    (hashF : String → String) (salts : Nat → String)
    (sdClaims clearClaims : List (String × JSVal)) (sd_alg : String) :
    Except JsErr (List (String × JSVal) × List (String × String)) := do
  let st ← sdJwtPayloadHelperGo strF b64e hashF salts sd_alg sdClaims ([], [], [], 0)
  let (sdArray, wrapper, dmap, _) := st
  let sdJwtInput :=
    spreadFields
      (spreadFields [("_sd_alg", .str sd_alg), ("_sd", .arr (sdArray.map .str))]
        clearClaims)
      wrapper
  .ok (sdJwtInput, dmap)

/-! ## Decoding (`src/unnamed/part_001`) -/

/-- The result of the external `decodeJWT` collaborator (`JWT.js`, outside
the embedded sources; only its result shape matters here). -/
structure JWTDecoded where
  header : JSVal
  payload : JSVal
  signature : String
  data : String
deriving DecidableEq

/-- The result of part_001 `decodeSdJWT`. -/
structure SdJWTDecoded where
  header : JSVal
  payload : JSVal
  signature : String
  data : String
  disclosures : List String
  kb_jwt : Option String
deriving DecidableEq

/-- JS `sdJwt.split('~')` over the character list (always at least one
segment; `"".split('~')` is `[""]`). -/
def splitTildeGo : List Char → List Char → List String
  | [], acc => [String.mk acc.reverse]
  | ch :: rest, acc =>
      if ch = '~' then String.mk acc.reverse :: splitTildeGo rest []
      else splitTildeGo rest (ch :: acc)

/-- part_001 `_splitSdJwt(sdJwt)`: `sdJwt.split('~')`. -/
def splitTilde (sdJwt : String) : List String :=
  splitTildeGo sdJwt.data []

/-- part_001 `splitSdJwt(sdJwt)`: split on `~`, `pop()` the key-binding
segment, destructure the rest as `[jwt, ...disclosures]` (the token is
`undefined` — `none` — when nothing remains). -/
def splitSdJwt (sdJwt : String) : Option String × List String × String :=
  let parts := splitTilde sdJwt
  let kbJwt := (parts.getLast?).getD ""
  match parts.dropLast with
  | [] => (none, [], kbJwt)
  | jwt :: disclosures => (some jwt, disclosures, kbJwt)

/-- part_001 `decodeSdJWT(sdJwt, recurse)`: split, decode the signed token
(`decJWT` stands for the external `decodeJWT`), build the digest index with
the payload's `_sd_alg` (defaulted through `||`), expand, delete the
top-level `_sd_alg`, and attach the disclosures and optional key-binding
token. -/
def decodeSdJWT (dec : String → Option JSVal) (hashF : String → String)
    (decJWT : Option String → Bool → Except JsErr JWTDecoded) (fuel : Nat)
    (sdJwt : String) (recurse : Bool) : Except JsErr SdJWTDecoded := do
  let (jwt, disclosures, kbJwt) := splitSdJwt sdJwt
  let decodedJwt ← decJWT jwt recurse
  let sdAlg :=
    if jsTruthy (jsGetField decodedJwt.payload "_sd_alg") then
      jsGetField decodedJwt.payload "_sd_alg"
    else .str "sha-256"
  let disclosureMap ← buildDigestDisclosureMap hashF disclosures sdAlg
  let converted ← SD1.expandDisclosures dec fuel decodedJwt.payload disclosureMap recurse
  let converted := jsDelete converted "_sd_alg"
  .ok { header := decodedJwt.header, payload := converted,
        signature := decodedJwt.signature, data := decodedJwt.data,
        disclosures := disclosures,
        kb_jwt := if kbJwt == "" then none else some kbJwt }

end SD1

namespace SD0

/-! ## `src/src/SD-JWT.ts` variants -/

/-- `SD-JWT.ts` `formSdJwt(jwt, encodedDisclosures, kbJwt)`: the template
literal there reads
`` `${jwt}~${encodedDisclosures.join('~')}~${kbJwt ? kbJwt : ''}}` `` —
note the doubled closing brace, whose first character ends the interpolation
and whose second is a literal `\x7d` emitted into the wire string. -/
def formSdJwt (jwt : String) (encodedDisclosures : List String)
    (kbJwt : Option String) : String :=
  jwt ++ "~" ++ String.intercalate "~" encodedDisclosures ++ "~" ++
    (match kbJwt with
     | some kb => if kb == "" then "" else kb
     | none => "") ++ "\x7d"

end SD0

namespace JWE1

/-! ## Encryption envelope (`src/src/encryption/JWE.ts`)

Byte strings (`Uint8Array`) are modelled as `List Nat`.  The byte/base64url
codecs (`bytesToBase64url`, `base64ToBytes`, `toSealed`, `fromString`) live
in `util.js` outside the embedded sources and appear as function
parameters. -/

/-- An ephemeral key pair as produced by `Encrypter.genEpk`. -/
structure EphemeralKeyPair where
  publicKeyJWK : JSVal
deriving DecidableEq

/-- One entry of a JWE `recipients` array.  `header` is an `Option` so that
a runtime-missing (`undefined`) header, which `validateJWE` rejects, is
representable. -/
structure JWERecipient where
  encrypted_key : String
  header : Option (List (String × JSVal))
deriving DecidableEq

/-- The JWE envelope (`types.ts` `JWE`).  `protected_` models the
`protected` member (a Lean keyword); it is an `Option` because the
`<string>protectedHeader` cast in `encodeJWE` lets `undefined` through. -/
structure JWE where
  protected_ : Option String
  iv : String
  ciphertext : String
  tag : String
  aad : Option String
  recipients : Option (List JWERecipient)
deriving DecidableEq

/-- The result of one `Encrypter.encrypt` call (`types.ts`
`EncryptionResult`). -/
structure EncryptionResult where
  ciphertext : List Nat
  tag : Option (List Nat)
  iv : Option (List Nat)
  protectedHeader : Option String
  recipient : Option JWERecipient
  cek : Option (List Nat)

/-- The pluggable `Encrypter` collaborator.  `encrypt` is modelled as a pure
function of (cleartext, protected header, aad, ephemeral key pair); the
optional `encryptCek` wraps an existing content-encryption key for this
recipient. -/
structure Encrypter where
  alg : String
  enc : String
  encrypt : List Nat → List (String × JSVal) → Option (List Nat) →
    Option EphemeralKeyPair → EncryptionResult
  encryptCek : Option (List Nat → Option EphemeralKeyPair → Option JWERecipient)
  genEpk : Option (Unit → EphemeralKeyPair)

/-- The pluggable `Decrypter` collaborator; `decrypt` returns `none` for a
failed (`null`) decryption. -/
structure Decrypter where
  alg : String
  enc : String
  decrypt : List Nat → List Nat → List Nat → Option JWERecipient →
    Option (List Nat)

/-- `validateJWE(jwe)`: truthiness check of `protected`, `iv`, `ciphertext`
and `tag`, then of each recipient's `header` and `encrypted_key`. -/
def validateJWE (jwe : JWE) : Except JsErr Unit :=
  let protTruthy := match jwe.protected_ with
    | some s => s ≠ ""
    | none => false
  if !(protTruthy && jwe.iv ≠ "" && jwe.ciphertext ≠ "" && jwe.tag ≠ "") then
    .error .badJweMissingProps
  else
    match jwe.recipients with
    | none => .ok ()
    | some recs =>
        if recs.all (fun rec => rec.header.isSome && rec.encrypted_key ≠ "") then
          .ok ()
        else .error .badJweMalformedRecipients

/-- `encodeJWE(encryptionResult, aad)`; `b64b` stands for
`bytesToBase64url`. -/
def encodeJWE (b64b : List Nat → String) (r : EncryptionResult)
    (aad : Option (List Nat)) : JWE :=
  let jwe : JWE :=
    { protected_ := r.protectedHeader,
      iv := b64b (r.iv.getD []),
      ciphertext := b64b r.ciphertext,
      tag := b64b (r.tag.getD []),
      aad := none, recipients := none }
  let jwe := match aad with
    | some a => { jwe with aad := some (b64b a) }
    | none => jwe
  match r.recipient with
  | some rec => { jwe with recipients := some [rec] }
  | none => jwe

/-- The `for (const encrypter of encrypters)` loop of `createJWE`: the first
iteration (no cek yet) encrypts and builds the envelope; later iterations
wrap the existing cek via `encryptCek?.(cek, epk)` and
`jwe?.recipients?.push(recipient)` (both optional-chained: a missing
`encryptCek` or missing `recipients` silently skips). -/
def createJWELoop (b64b : List Nat → String) (cleartext : List Nat)
    (ph : List (String × JSVal)) (aad : Option (List Nat))
    (epk : Option EphemeralKeyPair) :
    List Encrypter → Option (List Nat) → Option JWE → Option JWE
  | [], _, jwe? => jwe?
  | encrypter :: rest, cek?, jwe? =>
      match cek? with
      | none =>
          let encryptionResult := encrypter.encrypt cleartext ph aad epk
          createJWELoop b64b cleartext ph aad epk rest encryptionResult.cek
            (some (encodeJWE b64b encryptionResult aad))
      | some cek =>
          let recipient := encrypter.encryptCek.bind (fun f => f cek epk)
          let jwe2 := match recipient with
            | some rec =>
                jwe?.map (fun j =>
                  { j with recipients := j.recipients.map (fun rs => rs ++ [rec]) })
            | none => jwe?
          createJWELoop b64b cleartext ph aad epk rest (some cek) jwe2

/-- `createJWE(cleartext, encrypters, protectedHeader, aad,
useSingleEphemeralKey)`. -/
def createJWE (b64b : List Nat → String) (cleartext : List Nat)
    (encrypters : List Encrypter) (protectedHeader : List (String × JSVal))
    (aad : Option (List Nat)) (useSingleEphemeralKey : Bool) :
    Except JsErr JWE :=
  match encrypters with
  | [] =>
      -- `encrypters[0].alg` dereferences `undefined`
      .error .typeError
  | e0 :: rest =>
      if e0.alg == "dir" then
        if (e0 :: rest).length > 1 then .error .dirMultipleKeys
        else .ok (encodeJWE b64b (e0.encrypt cleartext protectedHeader aad none) aad)
      else
        let tmpEnc := e0.enc
        if !((e0 :: rest).foldl (fun acc encrypter => acc && (encrypter.enc == tmpEnc)) true) then
          .error .incompatibleEncrypters
        else
          let epk := if useSingleEphemeralKey then e0.genEpk.map (fun g => g ()) else none
          let ph :=
            if useSingleEphemeralKey then
              spreadFields protectedHeader
                [("alg", .str e0.alg),
                 ("epk", match epk with
                  | some e => e.publicKeyJWK
                  | none => .undef)]
            else protectedHeader
          match createJWELoop b64b cleartext ph aad epk (e0 :: rest) none none with
          | some jwe => .ok jwe
          | none =>
              -- unreachable for a nonempty list; stands for the `<JWE>jwe` cast
              .error .typeError

/-- `Object.assign(target, source)` where `target` is a recipient header:
object sources assign their properties in order, string sources assign their
index properties, anything else contributes nothing. -/
def objAssign (target : List (String × JSVal)) (source : JSVal) :
    List (String × JSVal) :=
  match source with
  | .obj fs => spreadFields target fs
  | .arr xs => spreadFields target (xs.enum.map (fun p => (toString p.1, p.2)))
  | .str s =>
      spreadFields target
        (s.toList.enum.map (fun p => (toString p.1, .str (String.singleton p.2))))
  | _ => target

/-- The recipient scan of `decryptJWE`
(`for (let i = 0; !cleartext && i < jwe.recipients.length; i++)`): each
visited recipient's header is merged **in place** with the parsed protected
header via `Object.assign`, and the loop stops at the first successful
decryption.  Returns the post-state of the recipients array together with the
cleartext, if any. -/
def decryptLoop (decrypter : Decrypter) (protHeader : JSVal)
    (sealed iv aad : List Nat) :
    List JWERecipient → List JWERecipient × Option (List Nat)
  | [] => ([], none)
  | recipient :: rest =>
      let recipient2 :=
        { recipient with header := recipient.header.map (fun h => objAssign h protHeader) }
      if jsGetField (.obj (recipient2.header.getD [])) "alg" = .str decrypter.alg then
        match decrypter.decrypt sealed iv aad (some recipient2) with
        | some c => (recipient2 :: rest, some c)
        | none =>
            let (rest2, res) := decryptLoop decrypter protHeader sealed iv aad rest
            (recipient2 :: rest2, res)
      else
        let (rest2, res) := decryptLoop decrypter protHeader sealed iv aad rest
        (recipient2 :: rest2, res)

/-- `decryptJWE(jwe, decrypter)`.  The JS function mutates the `jwe`
argument through `Object.assign` on recipient headers, so the embedding is
state-passing: the second component of the result is the post-state of the
envelope the caller passed in.  `decB64` stands for
`JSON.parse(decodeBase64url(-))` on the protected header, `toSealedF` for
`toSealed`, `fromStringF` for `fromString(-, 'utf-8')`, and `b64d` for
`base64ToBytes`. -/
def decryptJWE (decB64 : Option String → Option JSVal)
    (toSealedF : String → String → List Nat) (fromStringF : String → List Nat)
    (b64d : String → List Nat) (jwe : JWE) (decrypter : Decrypter) :
    Except JsErr (List Nat) × JWE :=
  match validateJWE jwe with
  | .error e => (.error e, jwe)
  | .ok _ =>
      match decB64 jwe.protected_ with
      | none => (.error .syntaxError, jwe)
      | some protHeader =>
          if jsGetField protHeader "enc" ≠ .str decrypter.enc then
            (.error .decrypterNotSupported, jwe)
          else
            let sealed := toSealedF jwe.ciphertext jwe.tag
            let aad := fromStringF (match jwe.aad with
              | some a => (jwe.protected_.getD "undefined") ++ "." ++ a
              | none => jwe.protected_.getD "undefined")
            if jsGetField protHeader "alg" = .str "dir" && decrypter.alg == "dir" then
              match decrypter.decrypt sealed (b64d jwe.iv) aad none with
              | some cleartext => (.ok cleartext, jwe)
              | none => (.error .decryptFailure, jwe)
            else
              match jwe.recipients with
              | none => (.error .badJweMissingRecipients, jwe)
              | some [] => (.error .badJweMissingRecipients, jwe)
              | some recips =>
                  let (recips2, cleartext?) :=
                    decryptLoop decrypter protHeader sealed (b64d jwe.iv) aad recips
                  let jwe2 := { jwe with recipients := some recips2 }
                  match cleartext? with
                  | some c => (.ok c, jwe2)
                  | none => (.error .decryptFailure, jwe2)

end JWE1

/-! ## Auxiliary predicates -/

mutual

/-- Whether an object member named `k` occurs anywhere in a value, at any
nesting level. -/
def hasKeyDeep (k : String) : JSVal → Bool
  | .obj fields => hasKeyDeepFields k fields
  | .arr xs => hasKeyDeepList k xs
  | _ => false

def hasKeyDeepFields (k : String) : List (String × JSVal) → Bool
  | [] => false
  | (k', v) :: rest => k' == k || hasKeyDeep k v || hasKeyDeepFields k rest

def hasKeyDeepList (k : String) : List JSVal → Bool
  | [] => false
  | v :: rest => hasKeyDeep k v || hasKeyDeepList k rest

end

end DidJwt

namespace DidJwt

/-! ## Claim C1 — the reserved-claim guard

The claim: expanding a disclosure whose key is `nbf`/`iat`/`exp` raises an
integrity violation, the guard being an equality test against that fixed
set.  The source guard is `!(key in ['nbf', 'iat', 'exp'])`, and the JS `in`
operator on an array tests property names (`"0"`, `"1"`, `"2"`, `"length"`),
never the strings themselves — so the reserved names pass the guard and are
expanded. -/

/-- **C1** (code bug).  `isValidDisclosureKey` accepts all three reserved
validity-governing claim names (and instead rejects the unrelated keys
`"0"`, `"1"`, `"2"`, `"length"`), and a disclosure carrying the key `nbf`
is expanded into the payload without any error: for the digest map
`[("D", "dsc")]` where `"dsc"` decodes to `["s", "nbf", 1]`, expanding
`{_sd: ["D"]}` succeeds and yields `{nbf: 1}`. -/
theorem c1_reserved_key_guard_is_ineffective :
    SD1.isValidDisclosureKey (.str "nbf") = true ∧
    SD1.isValidDisclosureKey (.str "iat") = true ∧
    SD1.isValidDisclosureKey (.str "exp") = true ∧
    SD1.isValidDisclosureKey (.str "0") = false ∧
    SD1.isValidDisclosureKey (.str "length") = false ∧
    SD1.expandDisclosures (fun _ => some (.arr [.str "s", .str "nbf", .num 1]))
      2 (.obj [("_sd", .arr [.str "D"])]) [("D", "dsc")] true
      = .ok (.obj [("nbf", .num 1)]) := by
  refine ⟨rfl, rfl, rfl, rfl, rfl, ?_⟩
  decide

/-! ## Claim C10 — primitives (including `null`) through expansion

The claim: every primitive, `null` included, passes through expansion
unchanged and never causes an error.  In the source, `typeof null ===
'object'`, so a `null` claim value is recursed into (`Object.entries(null)`
throws a `TypeError`) and a `null` array element reaches `'...' in null`
(also a `TypeError`).  The inner disclosure-value branch guards
`value !== null`, showing the intent; the other two branches do not. -/

/-- **C10** (code bug).  A `null` claim value crashes object expansion with
recursion enabled, and a `null` array element crashes array expansion even
with recursion disabled, while the other primitives do pass through
unchanged. -/
theorem c10_null_crashes_expansion :
    SD1.expandDisclosures (fun _ => none) 2 (.obj [("a", .null)]) [] true
      = .error .typeError ∧
    SD1.expandArrayElements (fun _ => none) 2 [.null] [] false
      = .error .typeError ∧
    SD1.expandDisclosures (fun _ => none) 2
      (.obj [("a", .num 1), ("b", .str "x"), ("c", .bool false)]) [] true
      = .ok (.obj [("a", .num 1), ("b", .str "x"), ("c", .bool false)]) ∧
    SD1.expandArrayElements (fun _ => none) 2 [.num 1, .str "x", .bool true] [] true
      = .ok [.num 1, .str "x", .bool true] := by
  refine ⟨?_, ?_, ?_, ?_⟩ <;> decide

/-! ## Claim C5 — disclosure decoding checks

The claim: both decodes fail on non-array content; object-property decode
requires exactly 3 elements; array-element decode requires exactly 2.  The
source checks the first two conditions but `parseArrayElementDisclosure`
has no length check at all: it happily reads `disclosureArray[0]` and
`disclosureArray[1]` of a one-element (or empty) array, yielding
`undefined` fields instead of an error — contrary to the `decodeSdJWT`
doc comment ("Array disclosures are arrays of length 2"). -/

/-- **C5** (code bug).  Non-array content and wrong object-property arity
are rejected as claimed, but an array-element disclosure decoding to the
one-element array `["salt"]` is accepted, producing
`{salt: "salt", value: undefined}`. -/
theorem c5_array_element_length_unchecked :
    parseArrayElementDisclosure (fun _ => some (.num 5)) "d"
      = .error .invalidDisclosureFormat ∧
    parseObjectPropertyDisclosure (fun _ => some (.num 5)) "d"
      = .error .invalidDisclosureFormat ∧
    parseObjectPropertyDisclosure (fun _ => some (.arr [.str "s", .str "v"])) "d"
      = .error .disclosureArrayLength ∧
    parseArrayElementDisclosure (fun _ => some (.arr [.str "salt"])) "d"
      = .ok { salt := .str "salt", value := .undef } := by
  refine ⟨rfl, rfl, ?_, ?_⟩ <;> decide

/-! ## Claim C7 — the wire-format join

The claim: the join produces
`<signed-token>~<d_1>~...~<d_N>~<key-binding-or-empty>`, ending in a bare
trailing `~` when no key-binding token exists.  part_001's `formSdJwt` does
exactly that; the `formSdJwt` in `src/src/SD-JWT.ts` ends its template
literal with a doubled closing brace and appends a literal `\x7d` after the
key-binding segment, contradicting the format documented in its own doc
comment. -/

/-- **C7** (code bug in `src/src/SD-JWT.ts`).  The part_001 join matches the
claimed format (trailing `~` and nothing after it when no key-binding token
exists); the `SD-JWT.ts` join emits a stray `\x7d` after it. -/
theorem c7_formSdJwt_trailing_separator :
    SD1.formSdJwt "jwt" ["d1", "d2"] none = "jwt~d1~d2~" ∧
    SD1.formSdJwt "jwt" ["d1", "d2"] (some "kb") = "jwt~d1~d2~kb" ∧
    SD1.formSdJwt "jwt" [] none = "jwt~~" ∧
    SD0.formSdJwt "jwt" ["d1", "d2"] none = "jwt~d1~d2~\x7d" := by
  refine ⟨?_, ?_, ?_, ?_⟩ <;> decide

/-! ## Claim C3 — no `_sd`/`_sd_alg` in a fully expanded payload

The claim: after `decodeSdJWT` with recursion enabled, neither `_sd` nor
`_sd_alg` occurs at any nesting level.  `expandArrayElements` splices a
revealed array-element disclosure's value in verbatim, with no recursion
into it, and nothing ever deletes a nested `_sd_alg` (only the top-level one
is deleted in `decodeSdJWT`) — so a disclosure value that itself contains
`_sd` or `_sd_alg` members survives expansion, contradicting the
`decodeSdJWT` doc comment ("this ensures _sd and _sd_alg are removed from
the payload"). -/

/-- **C3** (code bug).  Decoding the SD-JWT `"t~dsc~"` (one presented
disclosure) with recursion enabled succeeds, and the resulting payload still
contains both an `_sd` and an `_sd_alg` member (inside the spliced
array-element disclosure value `{_sd: [], _sd_alg: "sha-256"}`). -/
theorem c3_expanded_payload_retains_sd_members :
    (match SD1.decodeSdJWT
        (fun _ => some (.arr [.str "salt",
          .obj [("_sd", .arr []), ("_sd_alg", .str "sha-256")]]))
        (fun _ => "D")
        (fun _ _ => .ok ⟨.obj [], .obj [("a", .arr [.obj [("...", .str "D")]])], "", ""⟩)
        3 "t~dsc~" true with
     | .ok r => hasKeyDeep "_sd" r.payload && hasKeyDeep "_sd_alg" r.payload
     | .error _ => false) = true := by
  decide

/-! ## Claim C8 — multi-recipient sealing -/

theorem foldl_and_eq_all {α : Type} (p : α → Bool) :
    ∀ (l : List α) (b : Bool),
      l.foldl (fun acc e => acc && p e) b = (b && l.all p) := by
  intro l
  induction l with
  | nil => intro b; simp
  | cons x xs ih =>
      intro b
      simp only [List.foldl_cons, List.all_cons, ih, Bool.and_assoc]

/-- `encodeJWE` in closed form. -/
theorem encodeJWE_eq (b64b : List Nat → String) (r : JWE1.EncryptionResult)
    (aad : Option (List Nat)) :
    JWE1.encodeJWE b64b r aad =
      { protected_ := r.protectedHeader,
        iv := b64b (r.iv.getD []),
        ciphertext := b64b r.ciphertext,
        tag := b64b (r.tag.getD []),
        aad := aad.map b64b,
        recipients := r.recipient.map (fun rec => [rec]) } := by
  unfold JWE1.encodeJWE
  cases aad <;> cases r.recipient <;> rfl

/-- The wrapped-key step a later encrypter performs for an existing cek. -/
def wrapOf (cek : List Nat) (epk : Option JWE1.EphemeralKeyPair)
    (e : JWE1.Encrypter) : Option JWE1.JWERecipient :=
  e.encryptCek.bind (fun f => f cek epk)

theorem createJWELoop_wrap (b64b : List Nat → String) (cleartext : List Nat)
    (ph : List (String × JSVal)) (aad : Option (List Nat))
    (epk : Option JWE1.EphemeralKeyPair) (cek : List Nat) :
    ∀ (rest : List JWE1.Encrypter) (jwe0 : JWE1.JWE) (rs0 : List JWE1.JWERecipient),
      jwe0.recipients = some rs0 →
      (∀ e ∈ rest, (wrapOf cek epk e).isSome) →
      JWE1.createJWELoop b64b cleartext ph aad epk rest (some cek) (some jwe0) =
        some { jwe0 with
               recipients := some (rs0 ++ rest.filterMap (wrapOf cek epk)) } := by
  intro rest
  induction rest with
  | nil =>
      intro jwe0 rs0 hrs _
      simp only [JWE1.createJWELoop, List.filterMap_nil, List.append_nil, ← hrs]
  | cons e rest ih =>
      intro jwe0 rs0 hrs hall
      have he : (wrapOf cek epk e).isSome := hall e (List.mem_cons_self e rest)
      obtain ⟨r, hr⟩ := Option.isSome_iff_exists.mp he
      have hrest : ∀ e2 ∈ rest, (wrapOf cek epk e2).isSome := fun e2 h2 =>
        hall e2 (List.mem_cons_of_mem e h2)
      have hr2 : (e.encryptCek.bind fun f => f cek epk) = some r := hr
      simp only [JWE1.createJWELoop, hr2, Option.map_some', hrs]
      rw [ih { jwe0 with recipients := some (rs0 ++ [r]) } (rs0 ++ [r]) rfl hrest]
      simp only [List.filterMap_cons, hr]
      simp [List.append_assoc]

/-- **C8** (confirmed).  Sealing with a first non-direct encrypter followed
by any further encrypters: (a) if some encrypter disagrees on the
content-encryption algorithm `enc`, `createJWE` rejects with the
incompatible-encrypters error — the check precedes the encryption loop, so
this holds whatever the encrypters' `encrypt` functions would do; (b) if all
agree, and the first encrypter's single `encrypt` call yields a cek and a
recipient, and every later encrypter wraps that cek, then the envelope is
exactly the one encoded from the *first* encryption result — one
ciphertext, one tag, one iv — with one recipient entry per encrypter, the
later entries being precisely each encrypter's wrapping of the *same* cek
produced by the first encrypter. -/
theorem c8_createJWE_single_cek_per_recipient
    (b64b : List Nat → String) (cleartext : List Nat)
    (e0 : JWE1.Encrypter) (rest : List JWE1.Encrypter)
    (ph : List (String × JSVal)) (aad : Option (List Nat))
    (cek : List Nat) (rec0 : JWE1.JWERecipient)
    (hdir : e0.alg ≠ "dir")
    (hcek : (e0.encrypt cleartext ph aad none).cek = some cek)
    (hrec : (e0.encrypt cleartext ph aad none).recipient = some rec0) :
    ((¬ ∀ e ∈ rest, e.enc = e0.enc) →
      JWE1.createJWE b64b cleartext (e0 :: rest) ph aad false =
        .error .incompatibleEncrypters) ∧
    ((∀ e ∈ rest, e.enc = e0.enc) →
     (∀ e ∈ rest, (wrapOf cek none e).isSome) →
      JWE1.createJWE b64b cleartext (e0 :: rest) ph aad false =
        .ok { protected_ := (e0.encrypt cleartext ph aad none).protectedHeader,
              iv := b64b ((e0.encrypt cleartext ph aad none).iv.getD []),
              ciphertext := b64b (e0.encrypt cleartext ph aad none).ciphertext,
              tag := b64b ((e0.encrypt cleartext ph aad none).tag.getD []),
              aad := aad.map b64b,
              recipients := some (rec0 :: rest.filterMap (wrapOf cek none)) } ∧
      (rest.filterMap (wrapOf cek none)).length = rest.length) := by
  have hdirb : ¬ ((e0.alg == "dir") = true) := by simpa using hdir
  have hfold : ∀ b : Bool,
      (e0 :: rest).foldl (fun acc encrypter => acc && (encrypter.enc == e0.enc)) b
        = (b && rest.all (fun e => e.enc == e0.enc)) := by
    intro b
    rw [foldl_and_eq_all (fun e => e.enc == e0.enc) (e0 :: rest) b]
    simp
  constructor
  · intro hne
    have hall : rest.all (fun e => e.enc == e0.enc) = false := by
      cases h : rest.all (fun e => e.enc == e0.enc)
      · rfl
      · exact absurd (fun e he => beq_iff_eq.mp (List.all_eq_true.mp h e he)) hne
    simp only [JWE1.createJWE]
    rw [if_neg hdirb, hfold true]
    simp [hall]
  · intro heq hwrap
    have hall : rest.all (fun e => e.enc == e0.enc) = true :=
      List.all_eq_true.mpr (fun e he => beq_iff_eq.mpr (heq e he))
    simp only [JWE1.createJWE]
    rw [if_neg hdirb, hfold true]
    rw [show (!(true && rest.all (fun e => e.enc == e0.enc))) = false by
      simp [hall]]
    simp only [Bool.false_eq_true, if_false]
    simp only [JWE1.createJWELoop, hcek]
    rw [createJWELoop_wrap b64b cleartext ph aad none cek rest
      (JWE1.encodeJWE b64b (e0.encrypt cleartext ph aad none) aad) [rec0]
      (by rw [encodeJWE_eq, hrec]; rfl) hwrap]
    constructor
    · rw [encodeJWE_eq]
      rfl
    · have hlen : ∀ (l : List JWE1.Encrypter),
          (∀ e ∈ l, (wrapOf cek none e).isSome) →
          (l.filterMap (wrapOf cek none)).length = l.length := by
        intro l
        induction l with
        | nil => intro _; rfl
        | cons e l2 ih =>
            intro h2
            obtain ⟨r, hr⟩ := Option.isSome_iff_exists.mp
              (h2 e (List.mem_cons_self e l2))
            simp only [List.filterMap_cons, hr, List.length_cons]
            rw [ih (fun e2 he2 => h2 e2 (List.mem_cons_of_mem e he2))]
      exact hlen rest hwrap

/-- A concrete first encrypter for the C8 witness. -/
def c8e0 : JWE1.Encrypter :=
  ⟨"ECDH-ES+A256KW", "A256GCM",
    fun _ _ _ _ => ⟨[1, 2], some [3], some [4], some "P", some ⟨"k0", some []⟩, some [9]⟩,
    none, none⟩

/-- A concrete second encrypter for the C8 witness. -/
def c8e1 : JWE1.Encrypter :=
  ⟨"RSA-OAEP", "A256GCM",
    fun _ _ _ _ => ⟨[], none, none, none, none, none⟩,
    some (fun _ _ => some ⟨"w1", some []⟩), none⟩

/-- Witness for C8 at two concrete encrypters: the sealed envelope carries
the first encrypter's ciphertext/tag/iv and exactly one recipient entry per
encrypter. -/
theorem c8_createJWE_witness :
    JWE1.createJWE (fun l => toString l.length) [7] [c8e0, c8e1] [] none false
      = .ok ⟨some "P", "1", "2", "1", none,
             some [⟨"k0", some []⟩, ⟨"w1", some []⟩]⟩ := by
  have h := (c8_createJWE_single_cek_per_recipient (fun l => toString l.length)
      [7] c8e0 [c8e1] [] none [9] ⟨"k0", some []⟩
      (by decide) rfl rfl).2
    (fun e he => by rw [List.mem_singleton.mp he]; rfl)
    (fun e he => by rw [List.mem_singleton.mp he]; rfl)
  rw [h.1]
  decide

/-! ## Claim C9 — no mutation of inputs

The claim: no operation mutates its inputs; in particular decrypting leaves
the supplied envelope unchanged.  But the recipient scan of `decryptJWE`
executes `Object.assign(recipient.header, protHeader)`, merging the parsed
protected header **into** each visited recipient's header of the supplied
envelope.  (The expander, by contrast, does clone its input first.) -/

/-- A concrete envelope for the C9 counterexample. -/
def c9jwe : JWE1.JWE := ⟨some "P", "i", "c", "t", none, some [⟨"k", some []⟩]⟩

/-- A concrete decrypter for the C9 counterexample. -/
def c9decrypter : JWE1.Decrypter := ⟨"A", "E", fun _ _ _ _ => some [0]⟩

/-- **C9 counterexample.**  Decrypting `c9jwe` (protected header parsing to
`{enc: "E", alg: "A"}`) succeeds — and the envelope handed back as the
post-state of the argument differs from the supplied one: the recipient's
header has been overwritten with the merged protected header. -/
theorem c9_decryptJWE_mutates_envelope :
    (JWE1.decryptJWE (fun _ => some (.obj [("enc", .str "E"), ("alg", .str "A")]))
        (fun _ _ => []) (fun _ => []) (fun _ => []) c9jwe c9decrypter).1
      = .ok [0] ∧
    (JWE1.decryptJWE (fun _ => some (.obj [("enc", .str "E"), ("alg", .str "A")]))
        (fun _ _ => []) (fun _ => []) (fun _ => []) c9jwe c9decrypter).2
      ≠ c9jwe ∧
    (JWE1.decryptJWE (fun _ => some (.obj [("enc", .str "E"), ("alg", .str "A")]))
        (fun _ _ => []) (fun _ => []) (fun _ => []) c9jwe c9decrypter).2
      = ⟨some "P", "i", "c", "t", none,
         some [⟨"k", some [("enc", .str "E"), ("alg", .str "A")]⟩]⟩ := by
  refine ⟨?_, ?_, ?_⟩ <;> decide

/-- Per-recipient frame relation of the amended C9: the wrapped key is
untouched, and the header is either untouched or exactly the in-place
`Object.assign` merge with the parsed protected header. -/
def framedRec (ph : JSVal) (pre post : JWE1.JWERecipient) : Prop :=
  post.encrypted_key = pre.encrypted_key ∧
  (post.header = pre.header ∨
   post.header = pre.header.map (fun h => JWE1.objAssign h ph))

theorem framedRec_refl (ph : JSVal) (r : JWE1.JWERecipient) : framedRec ph r r :=
  ⟨rfl, Or.inl rfl⟩

/-- The recipient scan only rewrites headers (by the `Object.assign` merge)
and preserves everything else, recipient by recipient. -/
theorem decryptLoop_framed (d : JWE1.Decrypter) (ph : JSVal)
    (sealed iv aad : List Nat) :
    ∀ recips : List JWE1.JWERecipient,
      List.Forall₂ (framedRec ph) recips
        (JWE1.decryptLoop d ph sealed iv aad recips).1 := by
  intro recips
  induction recips with
  | nil => exact List.Forall₂.nil
  | cons r rest ih =>
      have hmerge : framedRec ph r
          { r with header := r.header.map (fun h => JWE1.objAssign h ph) } :=
        ⟨rfl, Or.inr rfl⟩
      simp only [JWE1.decryptLoop]
      split
      · split
        · exact List.Forall₂.cons hmerge
            (List.forall₂_same.mpr (fun x _ => framedRec_refl ph x))
        · cases hl : JWE1.decryptLoop d ph sealed iv aad rest with
          | mk rest2 res =>
              have := ih
              rw [hl] at this
              exact List.Forall₂.cons hmerge this
      · cases hl : JWE1.decryptLoop d ph sealed iv aad rest with
        | mk rest2 res =>
            have := ih
            rw [hl] at this
            exact List.Forall₂.cons hmerge this

/-- **C9** (corrected).  Amended claim: expansion deep-copies its input, but
`decryptJWE` does mutate the supplied envelope — precisely, the post-state
of the envelope agrees with the supplied one on `protected`, `iv`,
`ciphertext`, `tag`, `aad`, and on every recipient's `encrypted_key`; only
recipient headers change, each visited one being replaced by its
`Object.assign` merge with the parsed protected header. -/
theorem c9_decryptJWE_frame (decB64 : Option String → Option JSVal)
    (toSealedF : String → String → List Nat) (fromStringF : String → List Nat)
    (b64d : String → List Nat) (jwe : JWE1.JWE) (d : JWE1.Decrypter) :
    (JWE1.decryptJWE decB64 toSealedF fromStringF b64d jwe d).2.protected_
        = jwe.protected_ ∧
    (JWE1.decryptJWE decB64 toSealedF fromStringF b64d jwe d).2.iv = jwe.iv ∧
    (JWE1.decryptJWE decB64 toSealedF fromStringF b64d jwe d).2.ciphertext
        = jwe.ciphertext ∧
    (JWE1.decryptJWE decB64 toSealedF fromStringF b64d jwe d).2.tag = jwe.tag ∧
    (JWE1.decryptJWE decB64 toSealedF fromStringF b64d jwe d).2.aad = jwe.aad ∧
    ((JWE1.decryptJWE decB64 toSealedF fromStringF b64d jwe d).2 = jwe ∨
     ∃ recips recips2,
       jwe.recipients = some recips ∧
       (JWE1.decryptJWE decB64 toSealedF fromStringF b64d jwe d).2
         = { jwe with recipients := some recips2 } ∧
       List.Forall₂ (framedRec ((decB64 jwe.protected_).getD .null))
         recips recips2) := by
  have main :
      (JWE1.decryptJWE decB64 toSealedF fromStringF b64d jwe d).2 = jwe ∨
      ∃ recips recips2,
        jwe.recipients = some recips ∧
        (JWE1.decryptJWE decB64 toSealedF fromStringF b64d jwe d).2
          = { jwe with recipients := some recips2 } ∧
        List.Forall₂ (framedRec ((decB64 jwe.protected_).getD .null))
          recips recips2 := by
    unfold JWE1.decryptJWE
    cases hval : JWE1.validateJWE jwe with
    | error e => exact Or.inl rfl
    | ok u =>
        cases hdec : decB64 jwe.protected_ with
        | none => exact Or.inl rfl
        | some ph =>
            dsimp only
            by_cases henc : jsGetField ph "enc" ≠ JSVal.str d.enc
            · rw [if_pos henc]
              exact Or.inl rfl
            · rw [if_neg henc]
              by_cases hdir2 :
                  (jsGetField ph "alg" = JSVal.str "dir" && d.alg == "dir") = true
              · rw [if_pos hdir2]
                split
                · exact Or.inl rfl
                · exact Or.inl rfl
              · rw [if_neg hdir2]
                cases hrec : jwe.recipients with
                | none => exact Or.inl rfl
                | some recips =>
                    cases recips with
                    | nil => exact Or.inl rfl
                    | cons r0 rrest =>
                        have hfr := decryptLoop_framed d ph
                          (toSealedF jwe.ciphertext jwe.tag) (b64d jwe.iv)
                          (fromStringF (match jwe.aad with
                            | some a => (jwe.protected_.getD "undefined") ++ "." ++ a
                            | none => jwe.protected_.getD "undefined"))
                          (r0 :: rrest)
                        rcases hl : JWE1.decryptLoop d ph
                            (toSealedF jwe.ciphertext jwe.tag) (b64d jwe.iv)
                            (fromStringF (match jwe.aad with
                              | some a => (jwe.protected_.getD "undefined") ++ "." ++ a
                              | none => jwe.protected_.getD "undefined"))
                            (r0 :: rrest) with ⟨recips2, ct⟩
                        rw [hl] at hfr
                        dsimp only
                        rw [hl]
                        refine Or.inr ⟨r0 :: rrest, recips2, rfl, ?_, hfr⟩
                        cases ct with
                        | some c => rfl
                        | none => rfl
  rcases main with h | ⟨recips, recips2, hrec, hpost, hfor⟩
  · rw [h]
    exact ⟨rfl, rfl, rfl, rfl, rfl, Or.inl rfl⟩
  · rw [hpost]
    exact ⟨rfl, rfl, rfl, rfl, rfl,
      Or.inr ⟨recips, recips2, hrec, rfl, hfor⟩⟩

/-! ## Claim C2 — duplicate claim keys abort the expansion -/

theorem exceptBind_ok {ε α β : Type} (a : α) (f : α → Except ε β) :
    ((Except.ok a : Except ε α) >>= f) = f a := rfl

theorem exceptBind_err {ε α β : Type} (e : ε) (f : α → Except ε β) :
    ((Except.error e : Except ε α) >>= f) = .error e := rfl

/-- A primitive (non-collection, non-null, non-undefined) JS value. -/
def isPrim : JSVal → Bool
  | .bool _ => true
  | .num _ => true
  | .str _ => true
  | _ => false

theorem setField_preserves_key (fs : List (String × JSVal)) (k2 : String)
    (v : JSVal) (k : String) (h : fs.any (fun f => f.1 == k) = true) :
    (setField fs k2 v).any (fun f => f.1 == k) = true := by
  induction fs with
  | nil => simp at h
  | cons f rest ih =>
      obtain ⟨k1, v1⟩ := f
      simp only [List.any_cons] at h
      simp only [setField]
      by_cases hk : k1 == k2
      · rw [if_pos hk]
        simpa using h
      · rw [if_neg hk]
        simp only [List.any_cons]
        cases (Bool.or_eq_true _ _).mp h with
        | inl h1 => simp [h1]
        | inr h2 => simp [ih h2]

theorem jsHasProp_jsSet_obj (fs : List (String × JSVal)) (k2 : String)
    (v : JSVal) (k : String) (h : jsHasProp (.obj fs) k = true) :
    jsHasProp (jsSet (.obj fs) k2 v) k = true := by
  simpa [jsHasProp, jsSet] using setField_preserves_key fs k2 v k (by simpa [jsHasProp] using h)

theorem jsonCloneFields_keeps_key :
    ∀ (fields : List (String × JSVal)) (k : String) (v : JSVal),
      (k, v) ∈ fields → v ≠ .undef →
      (jsonCloneFields fields).any (fun f => f.1 == k) = true := by
  intro fields
  induction fields with
  | nil => intro k v hmem _; cases hmem
  | cons f rest ih =>
      intro k v hmem hv
      obtain ⟨k1, v1⟩ := f
      rcases List.mem_cons.mp hmem with heq | hmem2
      · injection heq with hk hv2
        subst hk
        subst hv2
        cases v with
        | undef => exact absurd rfl hv
        | null => simp [jsonCloneFields]
        | bool b => simp [jsonCloneFields]
        | num n => simp [jsonCloneFields]
        | str s => simp [jsonCloneFields]
        | arr xs => simp [jsonCloneFields]
        | obj fs => simp [jsonCloneFields]
      · cases v1 with
        | undef => simpa [jsonCloneFields] using ih k v hmem2 hv
        | null => simp [jsonCloneFields, ih k v hmem2 hv]
        | bool b => simp [jsonCloneFields, ih k v hmem2 hv]
        | num n => simp [jsonCloneFields, ih k v hmem2 hv]
        | str s => simp [jsonCloneFields, ih k v hmem2 hv]
        | arr xs => simp [jsonCloneFields, ih k v hmem2 hv]
        | obj fs => simp [jsonCloneFields, ih k v hmem2 hv]

/-- Walking flat (primitive-valued, non-`_sd`) entries leaves the working
node untouched. -/
theorem expandEntriesGo_skip_prims (dec : String → Option JSVal)
    (m : List (String × String)) (recurse : Bool)
    (f : JSVal → Except JsErr JSVal) :
    ∀ (pre rest : List (String × JSVal)) (wip : JSVal),
      (∀ kv ∈ pre, kv.1 ≠ "_sd" ∧ isPrim kv.2 = true) →
      SD1.expandEntriesGo dec m recurse f (pre ++ rest) wip =
        SD1.expandEntriesGo dec m recurse f rest wip := by
  intro pre
  induction pre with
  | nil => intro rest wip _; rfl
  | cons kv pre2 ih =>
      intro rest wip hall
      obtain ⟨k, v⟩ := kv
      have hk : k ≠ "_sd" := (hall (k, v) (List.mem_cons_self _ _)).1
      have hv : isPrim v = true := (hall (k, v) (List.mem_cons_self _ _)).2
      have hkb : (k == "_sd") = false := by simpa using hk
      have htail := ih rest wip (fun kv2 h2 => hall kv2 (List.mem_cons_of_mem _ h2))
      simp only [List.cons_append, SD1.expandEntriesGo, hkb, Bool.false_eq_true,
        if_false]
      cases v with
      | bool b => simpa [typeofObject] using htail
      | num n => simpa [typeofObject] using htail
      | str s => simpa [typeofObject] using htail
      | null => simp [isPrim] at hv
      | undef => simp [isPrim] at hv
      | arr xs => simp [isPrim] at hv
      | obj fs => simp [isPrim] at hv

/-- If some pending disclosure's key is already present in the working node,
the `forEach` raises the duplicate-key error (primitive disclosure values
cannot fail first). -/
theorem applyObjectDisclosuresGo_dup (dec : String → Option JSVal)
    (m : List (String × String)) (recurse : Bool)
    (f : JSVal → Except JsErr JSVal) :
    ∀ (ds : List ObjectPropertyDisclosure) (fs : List (String × JSVal)),
      (∀ d ∈ ds, isPrim d.value = true) →
      (∃ d ∈ ds, jsHasProp (.obj fs) (jsToStr d.key) = true) →
      SD1.applyObjectDisclosuresGo dec m recurse f ds (.obj fs) =
        .error .duplicateKey := by
  intro ds
  induction ds with
  | nil =>
      intro fs _ hex
      obtain ⟨d, hd, _⟩ := hex
      cases hd
  | cons d0 rest ih =>
      intro fs hprim hex
      by_cases h0 : jsHasProp (.obj fs) (jsToStr d0.key) = true
      · simp only [SD1.applyObjectDisclosuresGo, h0, if_pos]
      · have h0b : jsHasProp (.obj fs) (jsToStr d0.key) = false := by
          simpa using h0
        obtain ⟨d, hd, hdk⟩ := hex
        have hdrest : d ∈ rest := by
          rcases List.mem_cons.mp hd with rfl | h2
          · exact absurd hdk (by simpa using h0)
          · exact h2
        have htail := ih (setField fs (jsToStr d0.key) d0.value)
          (fun d2 h2 => hprim d2 (List.mem_cons_of_mem _ h2))
          ⟨d, hdrest, jsHasProp_jsSet_obj fs _ _ _ hdk⟩
        have hp0 : isPrim d0.value = true := hprim d0 (List.mem_cons_self _ _)
        simp only [SD1.applyObjectDisclosuresGo, h0b, Bool.false_eq_true, if_false]
        cases recurse with
        | false =>
            simpa [jsSet] using htail
        | true =>
            cases hval2 : d0.value with
            | bool b => rw [hval2] at htail; simpa [jsSet] using htail
            | num n => rw [hval2] at htail; simpa [jsSet] using htail
            | str s2 => rw [hval2] at htail; simpa [jsSet] using htail
            | null => rw [hval2] at hp0; simp [isPrim] at hp0
            | undef => rw [hval2] at hp0; simp [isPrim] at hp0
            | arr xs => rw [hval2] at hp0; simp [isPrim] at hp0
            | obj fs2 => rw [hval2] at hp0; simp [isPrim] at hp0

/-- **C2** (confirmed).  For a payload node whose entries before `_sd` are
flat (primitive, non-`_sd`) claims, if the digests of `_sd` resolve and
parse into disclosures with primitive values, and some resolved disclosure's
key coincides with a key already present in the (cloned) node — at the same
nesting level — then the whole expansion aborts with the duplicate-key
integrity error; nothing is overwritten, since no result is produced at
all. -/
theorem c2_duplicate_key_aborts (dec : String → Option JSVal)
    (m : List (String × String)) (recurse : Bool) (fuel : Nat)
    (pre post : List (String × JSVal)) (sdv : List JSVal)
    (ds : List ObjectPropertyDisclosure)
    (hpre : ∀ kv ∈ pre, kv.1 ≠ "_sd" ∧ isPrim kv.2 = true)
    (hres : SD1.resolveSdDigests dec m sdv = .ok ds)
    (hvals : ∀ d ∈ ds, isPrim d.value = true)
    (hcol : ∃ d ∈ ds, ∃ kv ∈ pre ++ ("_sd", JSVal.arr sdv) :: post,
      kv.2 ≠ .undef ∧ jsToStr d.key = kv.1) :
    SD1.expandDisclosures dec (fuel + 1)
        (.obj (pre ++ ("_sd", JSVal.arr sdv) :: post)) m recurse =
      .error .duplicateKey := by
  have hstart : SD1.expandDisclosures dec (fuel + 1)
      (.obj (pre ++ ("_sd", JSVal.arr sdv) :: post)) m recurse =
      SD1.expandEntriesGo dec m recurse
        (fun v => SD1.expandDisclosures dec fuel v m recurse)
        (pre ++ ("_sd", JSVal.arr sdv) :: post)
        (.obj (jsonCloneFields (pre ++ ("_sd", JSVal.arr sdv) :: post))) := rfl
  rw [hstart]
  rw [expandEntriesGo_skip_prims dec m recurse _ pre _ _ hpre]
  have hstep2 : SD1.expandEntriesGo dec m recurse
      (fun v => SD1.expandDisclosures dec fuel v m recurse)
      (("_sd", JSVal.arr sdv) :: post)
      (.obj (jsonCloneFields (pre ++ ("_sd", JSVal.arr sdv) :: post))) =
      ((SD1.resolveSdDigests dec m sdv) >>= fun ds2 =>
        (SD1.applyObjectDisclosuresGo dec m recurse
          (fun v => SD1.expandDisclosures dec fuel v m recurse) ds2
          (.obj (jsonCloneFields (pre ++ ("_sd", JSVal.arr sdv) :: post)))) >>=
        fun wip2 =>
          SD1.expandEntriesGo dec m recurse
            (fun v => SD1.expandDisclosures dec fuel v m recurse) post
            (jsDelete wip2 "_sd")) := rfl
  rw [hstep2, hres, exceptBind_ok]
  have hdup : SD1.applyObjectDisclosuresGo dec m recurse
      (fun v => SD1.expandDisclosures dec fuel v m recurse) ds
      (.obj (jsonCloneFields (pre ++ ("_sd", JSVal.arr sdv) :: post))) =
      .error .duplicateKey := by
    apply applyObjectDisclosuresGo_dup dec m recurse _ ds _ hvals
    obtain ⟨d, hd, kv, hkv, hkvu, hkeq⟩ := hcol
    refine ⟨d, hd, ?_⟩
    rw [hkeq]
    have := jsonCloneFields_keeps_key (pre ++ ("_sd", JSVal.arr sdv) :: post)
      kv.1 kv.2 (by simpa using hkv) hkvu
    simpa [jsHasProp] using this
  rw [hdup, exceptBind_err]

/-- Witness for C2: the payload `{sub: "x", _sd: ["D"]}` with the digest map
`{D -> "dsc"}` where `"dsc"` parses to the disclosure `["s", "sub", 1]` —
the revealed key `sub` collides with the clear-text `sub` and expansion
aborts with the duplicate-key error. -/
theorem c2_duplicate_key_witness :
    SD1.expandDisclosures (fun _ => some (.arr [.str "s", .str "sub", .num 1]))
        2 (.obj [("sub", .str "x"), ("_sd", .arr [.str "D"])]) [("D", "dsc")] true =
      .error .duplicateKey := by
  have h := c2_duplicate_key_aborts
    (fun _ => some (.arr [.str "s", .str "sub", .num 1]))
    [("D", "dsc")] true 1
    [("sub", .str "x")] [] [.str "D"]
    [⟨.str "s", .str "sub", .num 1⟩]
    (by intro kv hkv
        rcases List.mem_singleton.mp hkv with rfl
        exact ⟨by decide, rfl⟩)
    (by decide)
    (by intro d hd
        rcases List.mem_singleton.mp hd with rfl
        rfl)
    ⟨⟨.str "s", .str "sub", .num 1⟩, List.mem_singleton.mpr rfl,
      ("sub", .str "x"), List.mem_cons_self _ _, by decide, rfl⟩
  exact h

/-! ## Claim C4 — order independence of presented disclosures

The digest index is the only thing the wire order of presented disclosures
feeds into, and expansion consults the index only through `Map.get`/`has`.
Provided the digest function does not collide on the presented disclosures
(the spec treats it as a collision-resistant black box), the index's lookup
function is invariant under permutation, hence so is the whole expansion. -/

theorem buildDigestDisclosureMap_sha (hashF : String → String) :
    ∀ l : List String,
      buildDigestDisclosureMap hashF l (.str "sha-256") =
        .ok (l.map (fun d => (hashF d, d))) := by
  intro l
  induction l with
  | nil => rfl
  | cons d rest ih =>
      simp only [buildDigestDisclosureMap, List.mapM_cons] at ih ⊢
      rw [show hashDisclosure hashF d (.str "sha-256") = .ok (hashF d) from rfl, ih]
      rfl

theorem buildDigestDisclosureMap_other (hashF : String → String) (alg : JSVal)
    (halg : alg ≠ .str "sha-256") :
    ∀ l : List String,
      buildDigestDisclosureMap hashF l alg =
        (match l with
         | [] => .ok []
         | _ :: _ => .error .unsupportedSdAlg) := by
  intro l
  cases l with
  | nil => rfl
  | cons d rest =>
      simp only [buildDigestDisclosureMap, List.mapM_cons]
      rw [show hashDisclosure hashF d alg = .error .unsupportedSdAlg from by
        simp [hashDisclosure, halg]]
      rfl

/-- Lookup in the digest index built from a collision-free disclosure list:
`digest ↦ d` exactly when `d` is a presented disclosure with that digest. -/
theorem mapGet_hash_map (hashF : String → String) :
    ∀ (l : List String) (k v : String),
      (∀ a ∈ l, ∀ b ∈ l, hashF a = hashF b → a = b) →
      (mapGet (l.map (fun d => (hashF d, d))) k = some v ↔
        (v ∈ l ∧ hashF v = k)) := by
  intro l
  induction l with
  | nil => intro k v _; simp [mapGet]
  | cons d rest ih =>
      intro k v hinj
      have hinj2 : ∀ a ∈ rest, ∀ b ∈ rest, hashF a = hashF b → a = b :=
        fun a ha b hb => hinj a (List.mem_cons_of_mem _ ha) b (List.mem_cons_of_mem _ hb)
      simp only [List.map_cons, mapGet]
      cases hrest : mapGet (rest.map fun d => (hashF d, d)) k with
      | some v2 =>
          constructor
          · intro h
            injection h with h
            have h2 := (ih k v2 hinj2).mp hrest
            exact h ▸ ⟨List.mem_cons_of_mem _ h2.1, h2.2⟩
          · rintro ⟨hv, hk⟩
            have h2 := (ih k v2 hinj2).mp hrest
            have : v = v2 :=
              hinj v hv v2 (List.mem_cons_of_mem _ h2.1) (by rw [hk, h2.2])
            rw [this]
      | none =>
          by_cases hdk : hashF d = k
          · rw [if_pos (by simpa using hdk)]
            constructor
            · intro h
              injection h with h
              exact h ▸ ⟨List.mem_cons_self _ _, hdk⟩
            · rintro ⟨hv, hk⟩
              rcases List.mem_cons.mp hv with rfl | hv2
              · rfl
              · have := (ih k v hinj2).mpr ⟨hv2, hk⟩
                rw [hrest] at this
                cases this
          · rw [if_neg (by simpa using hdk)]
            constructor
            · intro h; cases h
            · rintro ⟨hv, hk⟩
              rcases List.mem_cons.mp hv with rfl | hv2
              · exact absurd hk hdk
              · have := (ih k v hinj2).mpr ⟨hv2, hk⟩
                rw [hrest] at this
                cases this

theorem mapGet_build_perm (hashF : String → String) (l1 l2 : List String)
    (hperm : l1.Perm l2)
    (hinj : ∀ a ∈ l1, ∀ b ∈ l1, hashF a = hashF b → a = b) :
    ∀ k, mapGet (l1.map (fun d => (hashF d, d))) k =
      mapGet (l2.map (fun d => (hashF d, d))) k := by
  intro k
  have hinj2 : ∀ a ∈ l2, ∀ b ∈ l2, hashF a = hashF b → a = b :=
    fun a ha b hb => hinj a (hperm.symm.subset ha) b (hperm.symm.subset hb)
  cases h1 : mapGet (l1.map (fun d => (hashF d, d))) k with
  | some v =>
      have h2 := (mapGet_hash_map hashF l1 k v hinj).mp h1
      rw [(mapGet_hash_map hashF l2 k v hinj2).mpr ⟨hperm.subset h2.1, h2.2⟩]
  | none =>
      cases h2 : mapGet (l2.map (fun d => (hashF d, d))) k with
      | none => rfl
      | some w =>
          have h3 := (mapGet_hash_map hashF l2 k w hinj2).mp h2
          have h4 := (mapGet_hash_map hashF l1 k w hinj).mpr
            ⟨hperm.symm.subset h3.1, h3.2⟩
          rw [h1] at h4
          cases h4

/-! Congruence of expansion in the digest index: every use of the index goes
through `mapGet`, so two indices with the same lookup function expand every
payload identically. -/

theorem resolveSdDigests_congr (dec : String → Option JSVal)
    (m1 m2 : List (String × String)) (hm : ∀ k, mapGet m1 k = mapGet m2 k) :
    ∀ sdv, SD1.resolveSdDigests dec m1 sdv = SD1.resolveSdDigests dec m2 sdv := by
  intro sdv
  simp only [SD1.resolveSdDigests, mapHas, hm]

theorem expandArrayElementsGo_congr (dec : String → Option JSVal)
    (m1 m2 : List (String × String)) (recurse : Bool)
    (f1 f2 : JSVal → Except JsErr JSVal)
    (hm : ∀ k, mapGet m1 k = mapGet m2 k) (hf : ∀ v, f1 v = f2 v) :
    ∀ elems, SD1.expandArrayElementsGo dec m1 recurse f1 elems =
      SD1.expandArrayElementsGo dec m2 recurse f2 elems := by
  intro elems
  induction elems with
  | nil => rfl
  | cons e rest ih =>
      cases e with
      | null => rfl
      | undef => simp only [SD1.expandArrayElementsGo, ih]
      | bool b => simp only [SD1.expandArrayElementsGo, ih]
      | num n => simp only [SD1.expandArrayElementsGo, ih]
      | str s => simp only [SD1.expandArrayElementsGo, ih]
      | arr xs => simp only [SD1.expandArrayElementsGo, ih, hf]
      | obj fields => simp only [SD1.expandArrayElementsGo, ih, hf, hm]

theorem applyObjectDisclosuresGo_congr (dec : String → Option JSVal)
    (m1 m2 : List (String × String)) (recurse : Bool)
    (f1 f2 : JSVal → Except JsErr JSVal)
    (hm : ∀ k, mapGet m1 k = mapGet m2 k) (hf : ∀ v, f1 v = f2 v) :
    ∀ ds wip, SD1.applyObjectDisclosuresGo dec m1 recurse f1 ds wip =
      SD1.applyObjectDisclosuresGo dec m2 recurse f2 ds wip := by
  intro ds
  induction ds with
  | nil => intro wip; rfl
  | cons d rest ih =>
      intro wip
      simp only [SD1.applyObjectDisclosuresGo, ih, hf,
        expandArrayElementsGo_congr dec m1 m2 recurse f1 f2 hm hf]

theorem expandEntriesGo_congr (dec : String → Option JSVal)
    (m1 m2 : List (String × String)) (recurse : Bool)
    (f1 f2 : JSVal → Except JsErr JSVal)
    (hm : ∀ k, mapGet m1 k = mapGet m2 k) (hf : ∀ v, f1 v = f2 v) :
    ∀ entries wip, SD1.expandEntriesGo dec m1 recurse f1 entries wip =
      SD1.expandEntriesGo dec m2 recurse f2 entries wip := by
  intro entries
  induction entries with
  | nil => intro wip; rfl
  | cons kv rest ih =>
      intro wip
      simp only [SD1.expandEntriesGo, ih, hf,
        resolveSdDigests_congr dec m1 m2 hm,
        applyObjectDisclosuresGo_congr dec m1 m2 recurse f1 f2 hm hf,
        expandArrayElementsGo_congr dec m1 m2 recurse f1 f2 hm hf]

theorem expandDisclosures_map_congr (dec : String → Option JSVal)
    (m1 m2 : List (String × String)) (hm : ∀ k, mapGet m1 k = mapGet m2 k) :
    ∀ fuel p recurse, SD1.expandDisclosures dec fuel p m1 recurse =
      SD1.expandDisclosures dec fuel p m2 recurse := by
  intro fuel
  induction fuel with
  | zero => intro p r; rfl
  | succ n ih =>
      intro p r
      simp only [SD1.expandDisclosures]
      cases he : jsEntries p with
      | error e => rfl
      | ok entries =>
          simp only [exceptBind_ok]
          exact expandEntriesGo_congr dec m1 m2 r _ _ hm (fun v => ih v r)
            entries (jsonClone p)

/-- **C4** (confirmed).  Building the digest index from the presented
disclosures and expanding the signed payload yields identical results for
any two orderings of the presented disclosures, for every payload, digest
algorithm tag, recursion flag and depth budget — provided the digest
function does not collide on the presented disclosures, which is the spec's
standing assumption on the collision-resistant digest.  (With an actual
collision, `new Map`'s later-entry-wins overwriting would make the result
order-dependent.) -/
theorem c4_expansion_order_independent (dec : String → Option JSVal)
    (hashF : String → String) (p : JSVal) (l1 l2 : List String) (alg : JSVal)
    (fuel : Nat) (recurse : Bool)
    (hperm : l1.Perm l2)
    (hinj : ∀ a ∈ l1, ∀ b ∈ l1, hashF a = hashF b → a = b) :
    (buildDigestDisclosureMap hashF l1 alg >>= fun m =>
      SD1.expandDisclosures dec fuel p m recurse) =
    (buildDigestDisclosureMap hashF l2 alg >>= fun m =>
      SD1.expandDisclosures dec fuel p m recurse) := by
  by_cases halg : alg = .str "sha-256"
  · subst halg
    rw [buildDigestDisclosureMap_sha, buildDigestDisclosureMap_sha,
      exceptBind_ok, exceptBind_ok]
    exact expandDisclosures_map_congr dec _ _
      (mapGet_build_perm hashF l1 l2 hperm hinj) fuel p recurse
  · rw [buildDigestDisclosureMap_other hashF alg halg,
      buildDigestDisclosureMap_other hashF alg halg]
    cases h1 : l1 with
    | nil =>
        cases h2 : l2 with
        | nil => rfl
        | cons d rest =>
            rw [h1] at hperm
            have := hperm.symm.eq_nil
            rw [h2] at this
            cases this
    | cons d rest =>
        cases h2 : l2 with
        | nil =>
            rw [h2] at hperm
            have := hperm.eq_nil
            rw [h1] at this
            cases this
        | cons d2 rest2 => rfl

/-- Witness for C4 at a concrete payload, two concrete orderings of two
disclosures, and the identity function as the (injective) digest. -/
theorem c4_order_independence_witness :
    ((buildDigestDisclosureMap (fun s => s) ["a", "b"] (.str "sha-256")) >>=
      fun m => SD1.expandDisclosures
        (fun s => some (.arr [.str "s", .str ("k" ++ s), .num 1])) 2
        (.obj [("_sd", .arr [.str "a", .str "b"])]) m true) =
    ((buildDigestDisclosureMap (fun s => s) ["b", "a"] (.str "sha-256")) >>=
      fun m => SD1.expandDisclosures
        (fun s => some (.arr [.str "s", .str ("k" ++ s), .num 1])) 2
        (.obj [("_sd", .arr [.str "a", .str "b"])]) m true) :=
  c4_expansion_order_independent
    (fun s => some (.arr [.str "s", .str ("k" ++ s), .num 1]))
    (fun s => s) (.obj [("_sd", .arr [.str "a", .str "b"])])
    ["a", "b"] ["b", "a"] (.str "sha-256") 2 true
    (by decide) (fun a _ b _ h => h)

/-! ## Claim C6 — the issuer-side payload helper

Association-list groundwork: lookups through `mapGet` (last entry wins, as
in a JS `Map` or a spread-built object literal) and `getField` (first entry,
as in a JS object with unique keys), and how `mapSet`/`setField`/
`spreadFields` act on them. -/

theorem mapGet_none_of_not_mem {α : Type} :
    ∀ (m : List (String × α)) (k : String), k ∉ m.map Prod.fst →
      mapGet m k = none := by
  intro m
  induction m with
  | nil => intro k _; rfl
  | cons p rest ih =>
      intro k hk
      obtain ⟨k1, v1⟩ := p
      have hk1 : k1 ≠ k := by
        intro h
        exact hk (by simp [h])
      have hrest : k ∉ rest.map Prod.fst := by
        intro h
        exact hk (by simp [h])
      simp only [mapGet, ih k hrest]
      simp [hk1]

theorem getField_none_iff {α : Type} :
    ∀ (m : List (String × α)) (k : String),
      getField m k = none ↔ k ∉ m.map Prod.fst := by
  intro m
  induction m with
  | nil => intro k; simp [getField]
  | cons p rest ih =>
      intro k
      obtain ⟨k1, v1⟩ := p
      by_cases h1 : k1 = k
      · subst h1
        simp [getField]
      · simp only [getField, if_neg (by simpa using h1 : ¬(k1 == k) = true)]
        rw [ih k]
        simp [Ne.symm h1]

theorem mapGet_mapSet (m : List (String × String)) (k2 : String) (v2 : String)
    (hnd : (m.map Prod.fst).Nodup) (k : String) :
    mapGet (mapSet m k2 v2) k = if k2 = k then some v2 else mapGet m k := by
  induction m with
  | nil =>
      by_cases h : k2 = k
      · simp [mapSet, mapGet, h]
      · simp [mapSet, mapGet, h, (by simpa using h : (k2 == k) = false)]
  | cons p rest ih =>
      obtain ⟨k1, v1⟩ := p
      simp only [List.map_cons, List.nodup_cons] at hnd
      obtain ⟨hk1, hnd2⟩ := hnd
      by_cases h12 : k1 = k2
      · subst h12
        rw [show mapSet ((k1, v1) :: rest) k1 v2 = (k1, v2) :: rest from by
          simp [mapSet]]
        by_cases hk : k1 = k
        · subst hk
          rw [if_pos rfl]
          have : mapGet rest k1 = none := mapGet_none_of_not_mem rest k1 hk1
          simp [mapGet, this]
        · rw [if_neg hk]
          simp only [mapGet]
          simp [(by simpa using hk : (k1 == k) = false)]
      · rw [show mapSet ((k1, v1) :: rest) k2 v2 =
            (k1, v1) :: mapSet rest k2 v2 from by
          simp [mapSet, h12]]
        simp only [mapGet, ih hnd2]
        by_cases hk : k2 = k
        · simp [hk]
        · simp only [if_neg hk]

theorem mem_keys_mapSet :
    ∀ (m : List (String × String)) (k v k3 : String),
      k3 ∈ (mapSet m k v).map Prod.fst → k3 ∈ m.map Prod.fst ∨ k3 = k := by
  intro m
  induction m with
  | nil => intro k v k3 h; simpa [mapSet] using h
  | cons p rest ih =>
      intro k v k3 h
      obtain ⟨k1, v1⟩ := p
      by_cases h12 : k1 = k
      · rw [show mapSet ((k1, v1) :: rest) k v = (k1, v) :: rest from by
          simp [mapSet, h12]] at h
        simp only [List.map_cons, List.mem_cons] at h
        rcases h with rfl | h2
        · exact Or.inl (by simp)
        · exact Or.inl (by simp [h2])
      · rw [show mapSet ((k1, v1) :: rest) k v =
            (k1, v1) :: mapSet rest k v from by simp [mapSet, h12]] at h
        simp only [List.map_cons, List.mem_cons] at h
        rcases h with rfl | h2
        · exact Or.inl (by simp)
        · rcases ih k v k3 h2 with h3 | h3
          · exact Or.inl (by simp [h3])
          · exact Or.inr h3

theorem mapSet_nodup :
    ∀ (m : List (String × String)) (k v : String),
      (m.map Prod.fst).Nodup → ((mapSet m k v).map Prod.fst).Nodup := by
  intro m
  induction m with
  | nil => intro k v _; simp [mapSet]
  | cons p rest ih =>
      intro k v hnd
      obtain ⟨k1, v1⟩ := p
      simp only [List.map_cons, List.nodup_cons] at hnd
      obtain ⟨hk1, hnd2⟩ := hnd
      by_cases h12 : k1 = k
      · rw [show mapSet ((k1, v1) :: rest) k v = (k1, v) :: rest from by
          simp [mapSet, h12]]
        simp only [List.map_cons, List.nodup_cons]
        exact ⟨hk1, hnd2⟩
      · rw [show mapSet ((k1, v1) :: rest) k v =
            (k1, v1) :: mapSet rest k v from by simp [mapSet, h12]]
        simp only [List.map_cons, List.nodup_cons]
        refine ⟨?_, ih k v hnd2⟩
        intro hmem
        rcases mem_keys_mapSet rest k v k1 hmem with h3 | h3
        · exact hk1 h3
        · exact h12 h3

theorem getField_setField_eq :
    ∀ (fs : List (String × JSVal)) (k2 : String) (v2 : JSVal) (k : String),
      getField (setField fs k2 v2) k =
        if k2 = k then some v2 else getField fs k := by
  intro fs
  induction fs with
  | nil =>
      intro k2 v2 k
      by_cases h : k2 = k
      · simp [setField, getField, h]
      · simp [setField, getField, h, (by simpa using h : (k2 == k) = false)]
  | cons p rest ih =>
      intro k2 v2 k
      obtain ⟨k1, v1⟩ := p
      by_cases h12 : k1 = k2
      · subst h12
        rw [show setField ((k1, v1) :: rest) k1 v2 = (k1, v2) :: rest from by
          simp [setField]]
        by_cases hk : k1 = k
        · subst hk
          simp [getField]
        · simp [getField, if_neg hk,
            (by simpa using hk : (k1 == k) = false)]
      · rw [show setField ((k1, v1) :: rest) k2 v2 =
            (k1, v1) :: setField rest k2 v2 from by simp [setField, h12]]
        by_cases hk : k1 = k
        · subst hk
          have hne : ¬(k2 = k1) := fun h => h12 h.symm
          simp [getField, ih, hne]
        · simp only [getField, if_neg (by simpa using hk : ¬(k1 == k) = true)]
          exact ih k2 v2 k

theorem setField_keys_sub :
    ∀ (fs : List (String × JSVal)) (k : String) (v : JSVal) (k3 : String),
      k3 ∈ (setField fs k v).map Prod.fst → k3 ∈ fs.map Prod.fst ∨ k3 = k := by
  intro fs
  induction fs with
  | nil => intro k v k3 h; simpa [setField] using h
  | cons p rest ih =>
      intro k v k3 h
      obtain ⟨k1, v1⟩ := p
      by_cases h12 : k1 = k
      · rw [show setField ((k1, v1) :: rest) k v = (k1, v) :: rest from by
          simp [setField, h12]] at h
        simp only [List.map_cons, List.mem_cons] at h
        rcases h with rfl | h2
        · exact Or.inl (by simp)
        · exact Or.inl (by simp [h2])
      · rw [show setField ((k1, v1) :: rest) k v =
            (k1, v1) :: setField rest k v from by simp [setField, h12]] at h
        simp only [List.map_cons, List.mem_cons] at h
        rcases h with rfl | h2
        · exact Or.inl (by simp)
        · rcases ih k v k3 h2 with h3 | h3
          · exact Or.inl (by simp [h3])
          · exact Or.inr h3

theorem setField_nodup :
    ∀ (fs : List (String × JSVal)) (k : String) (v : JSVal),
      (fs.map Prod.fst).Nodup → ((setField fs k v).map Prod.fst).Nodup := by
  intro fs
  induction fs with
  | nil => intro k v _; simp [setField]
  | cons p rest ih =>
      intro k v hnd
      obtain ⟨k1, v1⟩ := p
      simp only [List.map_cons, List.nodup_cons] at hnd
      obtain ⟨hk1, hnd2⟩ := hnd
      by_cases h12 : k1 = k
      · rw [show setField ((k1, v1) :: rest) k v = (k1, v) :: rest from by
          simp [setField, h12]]
        simp only [List.map_cons, List.nodup_cons]
        exact ⟨hk1, hnd2⟩
      · rw [show setField ((k1, v1) :: rest) k v =
            (k1, v1) :: setField rest k v from by simp [setField, h12]]
        simp only [List.map_cons, List.nodup_cons]
        refine ⟨?_, ih k v hnd2⟩
        intro hmem
        rcases setField_keys_sub rest k v k1 hmem with h3 | h3
        · exact hk1 h3
        · exact h12 h3

/-- The effective lookup of a spread-built object: the last added property
wins, otherwise the base's first match. -/
theorem getField_spreadFields :
    ∀ (add base : List (String × JSVal)) (k : String),
      getField (spreadFields base add) k =
        match mapGet add k with
        | some v => some v
        | none => getField base k := by
  intro add
  induction add with
  | nil => intro base k; rfl
  | cons p rest ih =>
      intro base k
      obtain ⟨k1, v1⟩ := p
      rw [show spreadFields base ((k1, v1) :: rest) =
          spreadFields (setField base k1 v1) rest from rfl]
      rw [ih (setField base k1 v1) k]
      simp only [mapGet]
      cases mapGet rest k with
      | some v => rfl
      | none =>
          rw [getField_setField_eq]
          by_cases h : k1 = k
          · simp [h]
          · simp [h, (by simpa using h : (k1 == k) = false)]

/-- For association lists with pairwise-distinct keys (JS objects), first-
and last-match lookup agree. -/
theorem mapGet_eq_getField_of_nodup {α : Type} :
    ∀ (fs : List (String × α)) (k : String),
      (fs.map Prod.fst).Nodup → mapGet fs k = getField fs k := by
  intro fs
  induction fs with
  | nil => intro k _; rfl
  | cons p rest ih =>
      intro k hnd
      obtain ⟨k1, v1⟩ := p
      simp only [List.map_cons, List.nodup_cons] at hnd
      obtain ⟨hk1, hnd2⟩ := hnd
      by_cases hk : k1 = k
      · subst hk
        have h0 : mapGet rest k1 = none := mapGet_none_of_not_mem rest k1 hk1
        simp [mapGet, h0, getField]
      · simp only [mapGet, ih k hnd2, getField,
          if_neg (by simpa using hk : ¬(k1 == k) = true)]
        cases getField rest k <;>
          simp [(by simpa using hk : (k1 == k) = false)]

theorem foldl_mapSet_nodup :
    ∀ (entries : List (String × String)) (m : List (String × String)),
      (m.map Prod.fst).Nodup →
      ((entries.foldl (fun acc p => mapSet acc p.1 p.2) m).map Prod.fst).Nodup := by
  intro entries
  induction entries with
  | nil => intro m h; exact h
  | cons q rest ih =>
      intro m h
      exact ih (mapSet m q.1 q.2) (mapSet_nodup m q.1 q.2 h)

/-- Entries of the form `(hashF d, d)` never displace an existing
`hashF e ↦ e` binding when `hashF` is injective. -/
theorem foldl_mapSet_stable (hashF : String → String)
    (hinj : Function.Injective hashF) :
    ∀ (entries : List (String × String)) (m : List (String × String)),
      (∀ q ∈ entries, q.1 = hashF q.2) →
      (m.map Prod.fst).Nodup →
      ∀ e, mapGet m (hashF e) = some e →
        mapGet (entries.foldl (fun acc p => mapSet acc p.1 p.2) m) (hashF e)
          = some e := by
  intro entries
  induction entries with
  | nil => intro m _ _ e he; exact he
  | cons q rest ih =>
      intro m hq hnd e he
      obtain ⟨dg, d⟩ := q
      have hdg : dg = hashF d := hq (dg, d) (List.mem_cons_self _ _)
      subst hdg
      refine ih (mapSet m (hashF d) d)
        (fun q2 h2 => hq q2 (List.mem_cons_of_mem _ h2))
        (mapSet_nodup m (hashF d) d hnd) e ?_
      rw [mapGet_mapSet m (hashF d) d hnd (hashF e)]
      by_cases heq : hashF d = hashF e
      · rw [if_pos heq, hinj heq]
      · rw [if_neg heq]
        exact he

theorem foldl_mapSet_mem (hashF : String → String)
    (hinj : Function.Injective hashF) :
    ∀ (entries : List (String × String)) (m : List (String × String)),
      (∀ q ∈ entries, q.1 = hashF q.2) →
      (m.map Prod.fst).Nodup →
      ∀ p ∈ entries,
        mapGet (entries.foldl (fun acc q => mapSet acc q.1 q.2) m) (hashF p.2)
          = some p.2 := by
  intro entries
  induction entries with
  | nil => intro m _ _ p hp; cases hp
  | cons q rest ih =>
      intro m hq hnd p hp
      obtain ⟨dg, d⟩ := q
      have hdg : dg = hashF d := hq (dg, d) (List.mem_cons_self _ _)
      subst hdg
      rcases List.mem_cons.mp hp with rfl | hp2
      · refine foldl_mapSet_stable hashF hinj rest (mapSet m (hashF d) d)
          (fun q2 h2 => hq q2 (List.mem_cons_of_mem _ h2))
          (mapSet_nodup m (hashF d) d hnd) d ?_
        rw [mapGet_mapSet m (hashF d) d hnd (hashF d), if_pos rfl]
      · exact ih (mapSet m (hashF d) d)
          (fun q2 h2 => hq q2 (List.mem_cons_of_mem _ h2))
          (mapSet_nodup m (hashF d) d hnd) p hp2

/-- Step equation of the helper loop for a non-array claim value. -/
theorem helperGo_cons_nonarr (strF : JSVal → String) (b64e : String → String)
    (hashF : String → String) (salts : Nat → String) (k : String) (v : JSVal)
    (hv : ∀ xs, v ≠ JSVal.arr xs) (rest : List (String × JSVal))
    (sdArray : List String) (wrapper : List (String × JSVal))
    (dmap : List (String × String)) (i : Nat) :
    SD1.sdJwtPayloadHelperGo strF b64e hashF salts "sha-256" ((k, v) :: rest)
        (sdArray, wrapper, dmap, i) =
      SD1.sdJwtPayloadHelperGo strF b64e hashF salts "sha-256" rest
        (sdArray ++ [hashF (SD1.createObjectPropertyDisclosure strF b64e k v (salts i) false)],
         wrapper,
         mapSet dmap
           (hashF (SD1.createObjectPropertyDisclosure strF b64e k v (salts i) false))
           (SD1.createObjectPropertyDisclosure strF b64e k v (salts i) false),
         i + 1) := by
  cases v with
  | arr xs => exact absurd rfl (hv xs)
  | null => rfl
  | undef => rfl
  | bool b => rfl
  | num n => rfl
  | str s => rfl
  | obj fs => rfl

/-- Step equation of the helper loop for an array claim value. -/
theorem helperGo_cons_arr (strF : JSVal → String) (b64e : String → String)
    (hashF : String → String) (salts : Nat → String) (k : String)
    (xs : List JSVal) (rest : List (String × JSVal))
    (sdArray : List String) (wrapper : List (String × JSVal))
    (dmap : List (String × String)) (i : Nat) :
    SD1.sdJwtPayloadHelperGo strF b64e hashF salts "sha-256"
        ((k, JSVal.arr xs) :: rest) (sdArray, wrapper, dmap, i) =
      SD1.sdJwtPayloadHelperGo strF b64e hashF salts "sha-256" rest
        (sdArray,
         setField wrapper k (.arr
           (((xs.enum.map (fun p =>
               SD1.createArrayElementDisclosure strF b64e p.2 (salts (i + p.1)) false)).map
             (fun d => (hashF d, d))).map
               (fun p => JSVal.obj [("...", .str p.1)]))),
         ((xs.enum.map (fun p =>
             SD1.createArrayElementDisclosure strF b64e p.2 (salts (i + p.1)) false)).map
           (fun d => (hashF d, d))).foldl (fun m p => mapSet m p.1 p.2) dmap,
         i + xs.length) := by
  simp only [SD1.sdJwtPayloadHelperGo]
  rw [show ((xs.enum.map (fun p =>
        SD1.createArrayElementDisclosure strF b64e p.2 (salts (i + p.1)) false)).mapM
        (fun d => (hashDisclosure hashF d (.str "sha-256")).map
          (fun digest => (digest, d))))
      = buildDigestDisclosureMap hashF
          (xs.enum.map (fun p =>
            SD1.createArrayElementDisclosure strF b64e p.2 (salts (i + p.1)) false))
          (.str "sha-256") from rfl]
  rw [buildDigestDisclosureMap_sha]
  rw [exceptBind_ok]

/-- Invariant of the helper loop: it succeeds, keeps the already-collected
digests and map entries, touches only the keys it processes, and records a
digest in `_sd` (for plain claims) or per-element `{"...": digest}`
wrappers (for array claims), each backed by a map entry for its
disclosure. -/
theorem sdJwtPayloadHelperGo_spec (strF : JSVal → String)
    (b64e : String → String) (hashF : String → String) (salts : Nat → String)
    (hinj : Function.Injective hashF) :
    ∀ (claims : List (String × JSVal)) (sdArray : List String)
      (wrapper : List (String × JSVal)) (dmap : List (String × String)) (i : Nat),
      (claims.map Prod.fst).Nodup →
      (dmap.map Prod.fst).Nodup →
      ∃ sdArray2 wrapper2 dmap2 i2,
        SD1.sdJwtPayloadHelperGo strF b64e hashF salts "sha-256" claims
          (sdArray, wrapper, dmap, i) = .ok (sdArray2, wrapper2, dmap2, i2) ∧
        (dmap2.map Prod.fst).Nodup ∧
        (∀ x ∈ sdArray, x ∈ sdArray2) ∧
        (∀ e, mapGet dmap (hashF e) = some e → mapGet dmap2 (hashF e) = some e) ∧
        (∀ k3, k3 ∉ claims.map Prod.fst →
          getField wrapper2 k3 = getField wrapper k3) ∧
        ((wrapper.map Prod.fst).Nodup → (wrapper2.map Prod.fst).Nodup) ∧
        (∀ kv ∈ claims, (∀ xs, kv.2 ≠ JSVal.arr xs) →
          ∃ e salt,
            e = SD1.createObjectPropertyDisclosure strF b64e kv.1 kv.2 salt false ∧
            hashF e ∈ sdArray2 ∧ mapGet dmap2 (hashF e) = some e) ∧
        (∀ kv ∈ claims, ∀ xs, kv.2 = JSVal.arr xs →
          ∃ wrappers, getField wrapper2 kv.1 = some (.arr wrappers) ∧
            wrappers.length = xs.length ∧
            ∀ j (hj : j < xs.length) (hw : j < wrappers.length),
              ∃ e salt,
                e = SD1.createArrayElementDisclosure strF b64e (xs.get ⟨j, hj⟩)
                  salt false ∧
                wrappers.get ⟨j, hw⟩ = .obj [("...", .str (hashF e))] ∧
                mapGet dmap2 (hashF e) = some e) := by
  intro claims
  induction claims with
  | nil =>
      intro sdArray wrapper dmap i _ hnd
      exact ⟨sdArray, wrapper, dmap, i, rfl, hnd, fun x h => h, fun e h => h,
        fun k3 _ => rfl, fun h => h,
        fun kv h => absurd h (List.not_mem_nil _),
        fun kv h => absurd h (List.not_mem_nil _)⟩
  | cons kv0 rest ih =>
      intro sdArray wrapper dmap i hnodup hnd
      obtain ⟨k, v⟩ := kv0
      simp only [List.map_cons, List.nodup_cons] at hnodup
      obtain ⟨hkrest, hnodup2⟩ := hnodup
      by_cases hva : ∃ xs, v = JSVal.arr xs
      · -- array-valued claim: one array-element disclosure per element
        obtain ⟨xs, rfl⟩ := hva
        rw [helperGo_cons_arr strF b64e hashF salts k xs rest sdArray wrapper dmap i]
        set D := xs.enum.map (fun p =>
          SD1.createArrayElementDisclosure strF b64e p.2 (salts (i + p.1)) false)
          with hD
        set E := D.map (fun d => (hashF d, d)) with hE
        have hEq : ∀ q ∈ E, q.1 = hashF q.2 := by
          intro q hq
          obtain ⟨d, _, rfl⟩ := List.mem_map.mp hq
          rfl
        have hnd2 : ((E.foldl (fun m p => mapSet m p.1 p.2) dmap).map
            Prod.fst).Nodup := foldl_mapSet_nodup E dmap hnd
        obtain ⟨sdArray2, wrapper2, dmap2, i2, hrun, hnodupD, hsdst, hmapst,
          hwst, hwnd, hA, hW⟩ :=
          ih sdArray (setField wrapper k
              (.arr (E.map (fun p => JSVal.obj [("...", .str p.1)]))))
            (E.foldl (fun m p => mapSet m p.1 p.2) dmap) (i + xs.length)
            hnodup2 hnd2
        have hstable : ∀ e, mapGet dmap (hashF e) = some e →
            mapGet dmap2 (hashF e) = some e := fun e he =>
          hmapst e (foldl_mapSet_stable hashF hinj E dmap hEq hnd e he)
        refine ⟨sdArray2, wrapper2, dmap2, i2, hrun, hnodupD, hsdst, hstable,
          ?_, ?_, ?_, ?_⟩
        · intro k3 hk3
          have hk3k : k3 ≠ k := fun h => hk3 (by simp [h])
          have hk3r : k3 ∉ rest.map Prod.fst := fun h => hk3 (by simp [h])
          rw [hwst k3 hk3r, getField_setField_eq, if_neg (Ne.symm hk3k)]
        · intro h
          exact hwnd (setField_nodup wrapper k _ h)
        · intro kv hkv hnonarr
          rcases List.mem_cons.mp hkv with rfl | h2
          · exact absurd rfl (hnonarr xs)
          · exact hA kv h2 hnonarr
        · intro kv hkv xs2 hxs2
          rcases List.mem_cons.mp hkv with rfl | h2
          · have hxs : xs = xs2 := JSVal.arr.inj hxs2
            subst hxs
            refine ⟨E.map (fun p => JSVal.obj [("...", .str p.1)]), ?_, ?_, ?_⟩
            · rw [hwst k hkrest, getField_setField_eq, if_pos rfl]
            · simp [hE, hD]
            · intro j hj hw
              have henum : (j, xs.get ⟨j, hj⟩) ∈ xs.enum := by
                have hlen : j < xs.enum.length := by
                  simpa [List.enum_length] using hj
                have hmem0 := List.getElem_mem hlen
                rw [List.getElem_enum] at hmem0
                simpa [List.get_eq_getElem] using hmem0
              have hDmem : SD1.createArrayElementDisclosure strF b64e
                  (xs.get ⟨j, hj⟩) (salts (i + j)) false ∈ D := by
                rw [hD]
                exact List.mem_map.mpr ⟨(j, xs.get ⟨j, hj⟩), henum, rfl⟩
              refine ⟨SD1.createArrayElementDisclosure strF b64e
                (xs.get ⟨j, hj⟩) (salts (i + j)) false, salts (i + j), rfl,
                ?_, ?_⟩
              · simp only [List.get_eq_getElem, List.getElem_map, hE, hD,
                  List.getElem_enum]
              · have hmem : (hashF (SD1.createArrayElementDisclosure strF b64e
                    (xs.get ⟨j, hj⟩) (salts (i + j)) false),
                    SD1.createArrayElementDisclosure strF b64e
                      (xs.get ⟨j, hj⟩) (salts (i + j)) false) ∈ E := by
                  rw [hE]
                  exact List.mem_map.mpr ⟨_, hDmem, rfl⟩
                have hfin := foldl_mapSet_mem hashF hinj E dmap hEq hnd _ hmem
                exact hmapst _ hfin
          · exact hW kv h2 xs2 hxs2
      · -- plain claim: one object-property disclosure
        have hv : ∀ xs, v ≠ JSVal.arr xs := by
          intro xs h
          exact hva ⟨xs, h⟩
        rw [helperGo_cons_nonarr strF b64e hashF salts k v hv rest sdArray
          wrapper dmap i]
        set e0 := SD1.createObjectPropertyDisclosure strF b64e k v (salts i) false
          with he0
        have hnd2 : ((mapSet dmap (hashF e0) e0).map Prod.fst).Nodup :=
          mapSet_nodup dmap (hashF e0) e0 hnd
        obtain ⟨sdArray2, wrapper2, dmap2, i2, hrun, hnodupD, hsdst, hmapst,
          hwst, hwnd, hA, hW⟩ :=
          ih (sdArray ++ [hashF e0]) wrapper (mapSet dmap (hashF e0) e0) (i + 1)
            hnodup2 hnd2
        have hstable : ∀ e2, mapGet dmap (hashF e2) = some e2 →
            mapGet dmap2 (hashF e2) = some e2 := by
          intro e2 he2
          refine hmapst e2 ?_
          rw [mapGet_mapSet dmap (hashF e0) e0 hnd (hashF e2)]
          by_cases heq : hashF e0 = hashF e2
          · rw [if_pos heq, hinj heq]
          · rw [if_neg heq]
            exact he2
        refine ⟨sdArray2, wrapper2, dmap2, i2, hrun, hnodupD, ?_, hstable,
          ?_, hwnd, ?_, ?_⟩
        · intro x hx
          exact hsdst x (List.mem_append_left _ hx)
        · intro k3 hk3
          have hk3r : k3 ∉ rest.map Prod.fst := fun h => hk3 (by simp [h])
          exact hwst k3 hk3r
        · intro kv hkv hnonarr
          rcases List.mem_cons.mp hkv with rfl | h2
          · refine ⟨e0, salts i, rfl, ?_, ?_⟩
            · exact hsdst (hashF e0)
                (List.mem_append_right _ (List.mem_singleton.mpr rfl))
            · refine hmapst e0 ?_
              rw [mapGet_mapSet dmap (hashF e0) e0 hnd (hashF e0), if_pos rfl]
          · exact hA kv h2 hnonarr
        · intro kv hkv xs2 hxs2
          rcases List.mem_cons.mp hkv with rfl | h2
          · exact absurd hxs2 (hv xs2)
          · exact hW kv h2 xs2 hxs2

/-- **C6** (confirmed).  `sdJwtPayloadHelper` returns the marked payload
together with the digest→disclosure map; every redacted object-property
claim yields one disclosure whose digest appears in the payload's `_sd` set
and is mapped to that disclosure, and every element of a redacted array
claim yields one array-element disclosure whose digest appears in a
`{"...": digest}` wrapper under the claim's key and is mapped to that
disclosure.  Hypotheses: the digest function is injective (the
collision-resistant black box of the spec), the redacted claim keys are
distinct (a JS object), and neither input uses the reserved key `_sd`
(which would shadow the digest set in the final spread). -/
theorem c6_sdJwtPayloadHelper_digest_map (strF : JSVal → String)
    (b64e : String → String) (hashF : String → String) (salts : Nat → String)
    (sdClaims clearClaims : List (String × JSVal))
    (hinj : Function.Injective hashF)
    (hnodup : (sdClaims.map Prod.fst).Nodup)
    (hcc : "_sd" ∉ clearClaims.map Prod.fst)
    (hsd : "_sd" ∉ sdClaims.map Prod.fst) :
    ∃ (payload : List (String × JSVal)) (dmap : List (String × String))
      (sdArr : List String),
      SD1.sdJwtPayloadHelper strF b64e hashF salts sdClaims clearClaims "sha-256"
        = .ok (payload, dmap) ∧
      getField payload "_sd" = some (.arr (sdArr.map .str)) ∧
      (∀ kv ∈ sdClaims, (∀ xs, kv.2 ≠ JSVal.arr xs) →
        ∃ e salt,
          e = SD1.createObjectPropertyDisclosure strF b64e kv.1 kv.2 salt false ∧
          hashF e ∈ sdArr ∧ mapGet dmap (hashF e) = some e) ∧
      (∀ kv ∈ sdClaims, ∀ xs, kv.2 = JSVal.arr xs →
        ∃ wrappers, getField payload kv.1 = some (.arr wrappers) ∧
          wrappers.length = xs.length ∧
          ∀ j (hj : j < xs.length) (hw : j < wrappers.length),
            ∃ e salt,
              e = SD1.createArrayElementDisclosure strF b64e (xs.get ⟨j, hj⟩)
                salt false ∧
              wrappers.get ⟨j, hw⟩ = .obj [("...", .str (hashF e))] ∧
              mapGet dmap (hashF e) = some e) := by
  obtain ⟨sdArr, wrapper2, dmap2, i2, hrun, _, _, _, hwst, hwnd, hA, hW⟩ :=
    sdJwtPayloadHelperGo_spec strF b64e hashF salts hinj sdClaims [] [] [] 0
      hnodup (by simp)
  refine ⟨spreadFields
      (spreadFields [("_sd_alg", .str "sha-256"),
        ("_sd", .arr (sdArr.map .str))] clearClaims) wrapper2,
    dmap2, sdArr, ?_, ?_, hA, ?_⟩
  · simp only [SD1.sdJwtPayloadHelper, hrun, exceptBind_ok]
  · have hw1 : getField wrapper2 "_sd" = none := by
      rw [hwst "_sd" hsd]
      rfl
    have hw2 : mapGet wrapper2 "_sd" = none :=
      mapGet_none_of_not_mem wrapper2 "_sd"
        ((getField_none_iff wrapper2 "_sd").mp hw1)
    have hc2 : mapGet clearClaims "_sd" = none :=
      mapGet_none_of_not_mem clearClaims "_sd" hcc
    rw [getField_spreadFields wrapper2 _ "_sd", hw2,
      getField_spreadFields clearClaims _ "_sd", hc2]
    rfl
  · intro kv hkv xs hxs
    obtain ⟨wrappers, hgw, hlen, hjs⟩ := hW kv hkv xs hxs
    have hw3 : mapGet wrapper2 kv.1 = some (JSVal.arr wrappers) := by
      rw [mapGet_eq_getField_of_nodup wrapper2 kv.1 (hwnd (by simp))]
      exact hgw
    refine ⟨wrappers, ?_, hlen, hjs⟩
    rw [getField_spreadFields wrapper2 _ kv.1, hw3]

/-- Witness for C6 at concrete inputs: one plain redacted claim and one
redacted two-element array claim. -/
theorem c6_sdJwtPayloadHelper_witness :
    ∃ (payload : List (String × JSVal)) (dmap : List (String × String))
      (sdArr : List String),
      SD1.sdJwtPayloadHelper (fun _ => "J") (fun s => s) (fun s => s)
        (fun n => toString n)
        [("name", .str "A"), ("tags", .arr [.num 1, .num 2])]
        [("iss", .str "me")] "sha-256" = .ok (payload, dmap) ∧
      getField payload "_sd" = some (.arr (sdArr.map .str)) := by
  obtain ⟨payload, dmap, sdArr, h1, h2, _, _⟩ :=
    c6_sdJwtPayloadHelper_digest_map (fun _ => "J") (fun s => s) (fun s => s)
      (fun n => toString n)
      [("name", .str "A"), ("tags", .arr [.num 1, .num 2])]
      [("iss", .str "me")]
      (fun a b h => h) (by decide) (by decide) (by decide)
  exact ⟨payload, dmap, sdArr, h1, h2⟩

end DidJwt
